import Mathlib

/-!
Shallow embedding of the mcscript task-orchestration engine
(src/mcscript/task.py, src/mcscript/utils.py) for checking the
natural-language specification against the code.

The flag directory is modelled as an association list from file name to
file content, together with the current working directory.  All file
operations used by the engine (write/truncate, append, remove, rename,
existence test, first-line read) are modelled explicitly.  Real time,
stdout redirection and the creation of auxiliary directories are not
observable by any claim and are represented by opaque string parameters
in an environment record.
-/

/-- Python exceptions that the modelled code can raise. -/
inductive PyErr where
  | attributeError
  | typeError
  | fileNotFoundError
deriving DecidableEq, Repr

deriving instance DecidableEq for Except

/-- TaskMode enum from task.py. -/
inductive TaskMode where
  | kRun
  | kTOC
  | kUnlock
  | kArchive
  | kPrerun
  | kOffline
deriving DecidableEq, Repr

/-- TaskStatus enum from task.py. -/
inductive TaskStatus where
  | kLocked
  | kFailed
  | kIncomplete
  | kDone
  | kMasked
  | kPending
deriving DecidableEq, Repr

/-- A task index is either an integer or a special string such as "ARCH". -/
inductive TaskIndex where
  | num (n : Nat)
  | str (s : String)
deriving DecidableEq, Repr

/-- Python format(n, "04d") for a nonnegative integer. -/
def pad4 (n : Nat) : String :=
  let s := toString n
  if s.length < 4 then String.mk (List.replicate (4 - s.length) '0') ++ s else s

/-- index_str from task.py: %04d format for ints, pass-through for strings. -/
def index_str (task_index : TaskIndex) : String :=
  match task_index with
  | .num n => pad4 n
  | .str s => s

/-- task_flag_base from task.py. -/
def task_flag_base (task_index : TaskIndex) (phase : Nat) : String :=
  "task-" ++ index_str task_index ++ "-" ++ toString phase

/-- State of the flag directory (file name, file content) plus the current
working directory of the process. -/
structure FS where
  files : List (String × String)
  cwd : String
deriving DecidableEq, Repr

def FS.lookup (fs : FS) (name : String) : Option String :=
  (fs.files.find? (fun e => e.1 == name)).map (fun e => e.2)

/-- os.path.exists for a file in the flag directory. -/
def FS.pathExists (fs : FS) (name : String) : Bool :=
  (fs.lookup name).isSome

/-- open(name, "w") followed by writing content: create or truncate. -/
def FS.writeFile (fs : FS) (name content : String) : FS :=
  { fs with files := (name, content) :: fs.files.filter (fun e => e.1 != name) }

/-- open(name, "a") followed by writing content: append, creating if missing. -/
def FS.appendFile (fs : FS) (name content : String) : FS :=
  match fs.lookup name with
  | some old => fs.writeFile name (old ++ content)
  | none => fs.writeFile name content

/-- os.remove. -/
def FS.removeFile (fs : FS) (name : String) : FS :=
  { fs with files := fs.files.filter (fun e => e.1 != name) }

/-- os.rename: fails if the source does not exist, overwrites the target. -/
def FS.rename (fs : FS) (old new : String) : Except PyErr FS :=
  match fs.lookup old with
  | none => .error .fileNotFoundError
  | some c => .ok ((fs.removeFile old).writeFile new c)

/-- Model of Python readline on a whole file content: the prefix up to and
including the first newline (the whole content when there is none). -/
def readline_chars : List Char → List Char
  | [] => []
  | c :: rest => if c == '\n' then [c] else c :: readline_chars rest

def readline (s : String) : String :=
  String.mk (readline_chars s.data)

/-- Run environment: the fields of mcscript.parameters.run consumed by the
engine, plus opaque stand-ins for wall-clock readings (time.asctime and the
formatted task duration written into flag files). -/
structure Env where
  job_id : String
  batch_mode : Bool
  asctime : String
  task_root_dir : String
  task_time_str : String
deriving DecidableEq, Repr

/-- get_lock from task.py.  `clobber` models another process overwriting the
lock file during the fixed sleep between the preliminary write and the
re-read (`none` means nobody interfered); it is only observable in batch
mode, because interactive mode skips the re-read. -/
def get_lock (env : Env) (clobber : Option String) (task_index : TaskIndex)
    (task_phase : Nat) (fs : FS) : Bool × FS :=
  let flag_base := task_flag_base task_index task_phase
  let fs1 := fs.writeFile (flag_base ++ ".lock") env.job_id
  let check : Bool × FS :=
    if env.batch_mode then
      let fs2 := match clobber with
        | some c => fs1.writeFile (flag_base ++ ".lock") c
        | none => fs1
      let line := readline ((fs2.lookup (flag_base ++ ".lock")).getD "")
      (line == env.job_id, fs2)
    else
      (true, fs1)
  if check.1 then
    let fs3 := check.2.appendFile (flag_base ++ ".lock")
      ("\n" ++ flag_base ++ "\n" ++ env.asctime ++ "\n")
    let fs4 := if fs3.pathExists (flag_base ++ ".incp") then
        fs3.removeFile (flag_base ++ ".incp")
      else fs3
    (true, fs4)
  else
    (false, check.2)

/-- fail_lock from task.py: rename .lock to .fail. -/
def fail_lock (task_index : TaskIndex) (task_phase : Nat) (fs : FS) :
    Except PyErr FS :=
  let flag_base := task_flag_base task_index task_phase
  fs.rename (flag_base ++ ".lock") (flag_base ++ ".fail")

/-- incomplete_lock from task.py: rename .lock to .incp. -/
def incomplete_lock (task_index : TaskIndex) (task_phase : Nat) (fs : FS) :
    Except PyErr FS :=
  let flag_base := task_flag_base task_index task_phase
  fs.rename (flag_base ++ ".lock") (flag_base ++ ".incp")

/-- finalize_lock from task.py: append end timestamp and duration to the
.lock file, then rename it to .done.  The append (mode "a") creates the file
when missing, so the subsequent rename always has a source; the error branch
of the match is unreachable. -/
def finalize_lock (env : Env) (task_index : TaskIndex) (task_phase : Nat)
    (fs : FS) : FS :=
  let flag_base := task_flag_base task_index task_phase
  let fs1 := fs.appendFile (flag_base ++ ".lock")
    (env.asctime ++ "\n" ++ env.task_time_str ++ "\n")
  match fs1.rename (flag_base ++ ".lock") (flag_base ++ ".done") with
  | .ok fs2 => fs2
  | .error _ => fs1

/-- task_status from task.py, the branch that probes the filesystem
(flag_dir_list argument equal to None). -/
def task_status (task_index : TaskIndex) (task_phase : Nat) (task_mask : Bool)
    (fs : FS) : TaskStatus :=
  let flag_base := task_flag_base task_index task_phase
  if fs.pathExists (flag_base ++ ".lock") then .kLocked
  else if fs.pathExists (flag_base ++ ".fail") then .kFailed
  else if fs.pathExists (flag_base ++ ".incp") then .kIncomplete
  else if fs.pathExists (flag_base ++ ".done") then .kDone
  else if !task_mask then .kMasked
  else .kPending

/-- task_status from task.py, the branch that consults a directory listing
(flag_dir_list argument not None). -/
def task_status_from_list (task_index : TaskIndex) (task_phase : Nat)
    (task_mask : Bool) (flag_dir_list : List String) : TaskStatus :=
  let flag_base := task_flag_base task_index task_phase
  if flag_dir_list.contains (flag_base ++ ".lock") then .kLocked
  else if flag_dir_list.contains (flag_base ++ ".fail") then .kFailed
  else if flag_dir_list.contains (flag_base ++ ".incp") then .kIncomplete
  else if flag_dir_list.contains (flag_base ++ ".done") then .kDone
  else if !task_mask then .kMasked
  else .kPending

/-- Split the characters following an opening bracket at the first closing
bracket; `none` when there is no closing bracket. -/
def findClose : List Char → Option (List Char × List Char)
  | [] => none
  | c :: rest =>
    if c == ']' then some ([], rest)
    else (findClose rest).map (fun p => (c :: p.1, p.2))

/-- Parse a bracket character class the way fnmatch.translate does: an
optional leading negation, then a closing bracket appearing first is part of
the class content; `none` when the bracket is unterminated (in which case
the opening bracket is treated as a literal character). -/
def parseClass (l : List Char) : Option (Bool × List Char × List Char) :=
  let neg := match l with
    | '!' :: _ => true
    | _ => false
  let l1 := match l with
    | '!' :: r => r
    | _ => l
  match l1 with
  | ']' :: r2 => (findClose r2).map (fun p => (neg, ']' :: p.1, p.2))
  | _ => (findClose l1).map (fun p => (neg, p.1, p.2))

/-- Interpret class content as ranges: "a-z" is a range, a lone character
stands for itself. -/
def classItems : List Char → List (Char × Char)
  | a :: '-' :: b :: rest => (a, b) :: classItems rest
  | a :: rest => (a, a) :: classItems rest
  | [] => []

def charInClass (items : List (Char × Char)) (c : Char) : Bool :=
  items.any (fun p => p.1 ≤ c && c ≤ p.2)

/-- One token of a shell glob pattern. -/
inductive GlobTok where
  | star
  | qmark
  | cls (neg : Bool) (items : List (Char × Char))
  | lit (c : Char)
deriving DecidableEq, Repr

/-- Fuelled glob tokenizer (each step consumes at least one character, so
fuel equal to the input length suffices; the fuel-exhausted branch is
unreachable). -/
def tokenizeGlobF : Nat → List Char → List GlobTok
  | 0, _ => []
  | _, [] => []
  | fuel + 1, '*' :: r => .star :: tokenizeGlobF fuel r
  | fuel + 1, '?' :: r => .qmark :: tokenizeGlobF fuel r
  | fuel + 1, '[' :: r =>
    match parseClass r with
    | some (neg, content, rest) =>
      .cls neg (classItems content) :: tokenizeGlobF fuel rest
    | none => .lit '[' :: tokenizeGlobF fuel r
  | fuel + 1, c :: r => .lit c :: tokenizeGlobF fuel r

def tokenizeGlob (l : List Char) : List GlobTok :=
  tokenizeGlobF l.length l

/-- Full-string glob matching over tokens.  A star matches when the rest of
the pattern matches some suffix of the name (the regex .* of
fnmatch.translate). -/
def globMatchTok : List GlobTok → List Char → Bool
  | [], name => name.isEmpty
  | .star :: ps, name => name.tails.any (fun suf => globMatchTok ps suf)
  | .qmark :: ps, name =>
    match name with
    | [] => false
    | _ :: ns => globMatchTok ps ns
  | .cls neg items :: ps, name =>
    match name with
    | [] => false
    | c :: ns => (charInClass items c != neg) && globMatchTok ps ns
  | .lit p :: ps, name =>
    match name with
    | [] => false
    | c :: ns => (p == c) && globMatchTok ps ns

/-- fnmatch.fnmatchcase(name, pattern): case-sensitive shell glob match of
the whole name. -/
def fnmatchcase (name pattern : String) : Bool :=
  globMatchTok (tokenizeGlob pattern.data) name.data

/-- Python str.split(sep) over the character list: splitting the empty
string gives one empty field, and adjacent separators give empty fields. -/
def split_chars (sep : Char) : List Char → List (List Char)
  | [] => [[]]
  | c :: rest =>
    if c == sep then [] :: split_chars sep rest
    else
      match split_chars sep rest with
      | [] => [[c]]
      | g :: gs => (c :: g) :: gs

/-- Python str.split(","). -/
def split_comma (s : String) : List String :=
  (split_chars ',' s.data).map String.mk

/-- match_pool from task.py.  A pool or pattern of None in Python is the
`none` case of the option.  Calling .split on None raises AttributeError;
calling fnmatch.fnmatchcase with a None name raises TypeError (the
is-empty branch of the pattern list is unreachable since str.split always
returns at least one element, but is kept for the loop shape). -/
def match_pool (pool : Option String) (patterns : Option String) :
    Except PyErr Bool :=
  if patterns == none && pool == none then .ok true
  else if patterns == some "ALL" then .ok true
  else
    match patterns with
    | none => .error .attributeError
    | some pats =>
      let pattern_list := split_comma pats
      match pool with
      | none => if pattern_list.isEmpty then .ok false else .error .typeError
      | some p => .ok (pattern_list.any (fun pattern => fnmatchcase p pattern))

/-- The per-task data consumed by the selector: the metadata pool and mask
fields (the task index is its position in the list). -/
structure TaskRec where
  pool : Option String
  mask : Bool
deriving DecidableEq, Repr

def dfltTask : TaskRec := { pool := none, mask := true }

/-- Eligibility of candidate index i in seek_task's scan: pool matched,
status Pending or Incomplete, and for phase > 0 the previous phase Done. -/
def seek_eligible (fs : FS) (tasks : List TaskRec) (task_pool : Option String)
    (task_phase : Nat) (i : Nat) : Prop :=
  match_pool (tasks.getD i dfltTask).pool task_pool = .ok true ∧
  (task_status (.num i) task_phase (tasks.getD i dfltTask).mask fs = .kPending ∨
    task_status (.num i) task_phase (tasks.getD i dfltTask).mask fs = .kIncomplete) ∧
  (task_phase > 0 →
    task_status (.num i) (task_phase - 1) (tasks.getD i dfltTask).mask fs = .kDone)

instance (fs : FS) (tasks : List TaskRec) (task_pool : Option String)
    (task_phase : Nat) (i : Nat) :
    Decidable (seek_eligible fs tasks task_pool task_phase i) := by
  unfold seek_eligible
  infer_instance

/-- The missing-prerequisite diagnostic line printed by seek_task. -/
def missing_prereq_msg (i : Nat) (task_phase : Nat) : String :=
  "Missing prerequisite " ++ task_flag_base (.num i) (task_phase - 1)

/-- The body of seek_task's for loop, over the list of candidate indices,
returning the selected index together with the printed diagnostics. -/
def seek_scan (fs : FS) (tasks : List TaskRec) (task_pool : Option String)
    (task_phase : Nat) : List Nat → Except PyErr (Option Nat × List String)
  | [] => .ok (none, [])
  | i :: rest =>
    match match_pool (tasks.getD i dfltTask).pool task_pool with
    | .error e => .error e
    | .ok false => seek_scan fs tasks task_pool task_phase rest
    | .ok true =>
      let task_mask := (tasks.getD i dfltTask).mask
      let st := task_status (.num i) task_phase task_mask fs
      if st ≠ .kPending ∧ st ≠ .kIncomplete then
        seek_scan fs tasks task_pool task_phase rest
      else if task_phase > 0 ∧
          task_status (.num i) (task_phase - 1) task_mask fs ≠ .kDone then
        match seek_scan fs tasks task_pool task_phase rest with
        | .error e => .error e
        | .ok (r, log) => .ok (r, missing_prereq_msg i task_phase :: log)
      else
        .ok (some i, [])

/-- seek_task from task.py.  The scan runs over range(prior+1, len(tasks));
the engine always calls it with prior ≥ -1, for which the clamp to 0 below
is exact. -/
def seek_task (fs : FS) (tasks : List TaskRec) (task_pool : Option String)
    (task_phase : Nat) (prior_task_index : Int) :
    Except PyErr (Option Nat × List String) :=
  seek_scan fs tasks task_pool task_phase
    ((List.range tasks.length).filter (fun i => prior_task_index < (i : Int)))

theorem seek_scan_mem (fs : FS) (tasks : List TaskRec) (task_pool : Option String)
    (task_phase : Nat) (l : List Nat) (i : Nat) (log : List String)
    (h : seek_scan fs tasks task_pool task_phase l = .ok (some i, log)) :
    i ∈ l := by
  induction l generalizing log with
  | nil => simp [seek_scan] at h
  | cons x rest ih =>
    unfold seek_scan at h
    cases hm : match_pool (tasks.getD x dfltTask).pool task_pool with
    | error e => rw [hm] at h; exact absurd h (by simp)
    | ok b =>
      rw [hm] at h
      cases b with
      | false => exact List.mem_cons_of_mem x (ih _ h)
      | true =>
        simp only at h
        split at h
        · exact List.mem_cons_of_mem x (ih _ h)
        · split at h
          · cases hr : seek_scan fs tasks task_pool task_phase rest with
            | error e => rw [hr] at h; exact absurd h (by simp)
            | ok p =>
              rw [hr] at h
              obtain ⟨r, lg⟩ := p
              simp only [Except.ok.injEq, Prod.mk.injEq] at h
              obtain ⟨h1, _⟩ := h
              subst h1
              exact List.mem_cons_of_mem x (ih lg hr)
          · simp only [Except.ok.injEq, Prod.mk.injEq] at h
            obtain ⟨h1, _⟩ := h
            cases h1
            exact List.mem_cons_self _ _

theorem seek_task_bounds (fs : FS) (tasks : List TaskRec)
    (task_pool : Option String) (task_phase : Nat) (prior : Int) (i : Nat)
    (log : List String)
    (h : seek_task fs tasks task_pool task_phase prior = .ok (some i, log)) :
    prior < (i : Int) ∧ i < tasks.length := by
  have hmem := seek_scan_mem fs tasks task_pool task_phase _ i log h
  simp only [List.mem_filter, List.mem_range, decide_eq_true_eq] at hmem
  exact ⟨hmem.2, hmem.1⟩

/-- TaskTimer from utils.py, over exact rationals.  Wall-clock readings
(time.time()) are passed in explicitly where the original reads the clock. -/
structure TaskTimer where
  start_time : ℚ
  end_time : ℚ
  safety_factor : ℚ
  minimum_time : ℚ
  timings : List ℚ
  task_start_time : Option ℚ
deriving DecidableEq, Repr

/-- TaskTimer.__init__(remaining_time, safety_factor, minimum_time), with
`now` standing for the time.time() call in the constructor. -/
def TaskTimer.init (remaining_time now safety_factor minimum_time : ℚ) :
    TaskTimer :=
  { start_time := now
    end_time := remaining_time + now
    safety_factor := safety_factor
    minimum_time := minimum_time
    timings := []
    task_start_time := none }

def TaskTimer.remaining_time (t : TaskTimer) (now : ℚ) : ℚ :=
  max 0 (t.end_time - now)

def TaskTimer.last_time (t : TaskTimer) : ℚ :=
  match t.timings.getLast? with
  | none => 0
  | some x => x

def TaskTimer.average_time (t : TaskTimer) : ℚ :=
  if t.timings.length = 0 then 0
  else t.timings.sum / t.timings.length

def TaskTimer.required_time (t : TaskTimer) : ℚ :=
  max (t.average_time * t.safety_factor)
    (max (t.last_time * t.safety_factor) t.minimum_time)

inductive TimerErr where
  | insufficientTime (required : ℚ)
  | runtimeError
deriving DecidableEq, Repr

/-- TaskTimer.start_timer. -/
def TaskTimer.start_timer (t : TaskTimer) (now : ℚ) :
    Except TimerErr TaskTimer :=
  if t.required_time > t.remaining_time now then
    .error (.insufficientTime t.required_time)
  else if t.task_start_time ≠ none then
    .error .runtimeError
  else
    .ok { t with task_start_time := some now }

/-- TaskTimer.cancel_timer. -/
def TaskTimer.cancel_timer (t : TaskTimer) : Except TimerErr TaskTimer :=
  match t.task_start_time with
  | none => .error .runtimeError
  | some _ => .ok { t with task_start_time := none }

/-- TaskTimer.stop_timer. -/
def TaskTimer.stop_timer (t : TaskTimer) (now : ℚ) :
    Except TimerErr (ℚ × TaskTimer) :=
  match t.task_start_time with
  | none => .error .runtimeError
  | some s =>
    let task_time := now - s
    .ok (task_time, { t with timings := t.timings ++ [task_time]
                             task_start_time := none })

/-- What the opaque phase handler did: returned normally, raised
InsufficientTime, or raised any other exception. -/
inductive HandlerOutcome where
  | ok
  | insufficientTime
  | failure
deriving DecidableEq, Repr

/-- The exceptions do_task can propagate: LockContention on a lost lock,
the handler's InsufficientTime or other exception, or an OSError from a
flag rename whose source is missing. -/
inductive TaskErr where
  | lockContention
  | insufficientTime
  | handlerFailure
  | osError
deriving DecidableEq, Repr

structure DoTaskResult where
  result : Except TaskErr Unit
  fs : FS
deriving DecidableEq, Repr

/-- The per-task working directory task-NNNN.dir under the run root. -/
def task_dir_name (root : String) (index : Nat) : String :=
  root ++ "/task-" ++ pad4 index ++ ".dir"

/-- The part of do_task from task.py after the lock has been obtained (or,
in mode kPrerun, skipped): change into the per-task directory, invoke the
phase handler, resolve the flag file according to the outcome, and change
back to the run root on the success path.  The handler is an opaque action
on the modelled state together with its outcome; output redirection and the
header prints only touch streams and are not modelled. -/
def do_task_body (env : Env) (mode : TaskMode) (task_phase task_index : Nat)
    (handler : FS → HandlerOutcome × FS) (st : FS) : DoTaskResult :=
  let task_dir := task_dir_name env.task_root_dir task_index
  let st1 := { st with cwd := task_dir }
  let handled := handler st1
  match handled.1 with
  | .insufficientTime =>
    if mode = TaskMode.kRun then
      match incomplete_lock (.num task_index) task_phase handled.2 with
      | .ok st2 => { result := .error .insufficientTime, fs := st2 }
      | .error _ => { result := .error .osError, fs := handled.2 }
    else { result := .error .insufficientTime, fs := handled.2 }
  | .failure =>
    if mode = TaskMode.kRun then
      match fail_lock (.num task_index) task_phase handled.2 with
      | .ok st2 => { result := .error .handlerFailure, fs := st2 }
      | .error _ => { result := .error .osError, fs := handled.2 }
    else { result := .error .handlerFailure, fs := handled.2 }
  | .ok =>
    let st2 :=
      if mode ≠ TaskMode.kPrerun then
        finalize_lock env (.num task_index) task_phase handled.2
      else handled.2
    { result := .ok (), fs := { st2 with cwd := env.task_root_dir } }

/-- do_task from task.py.  Mode kPrerun skips locking and all flag
transitions; a lost lock raises LockContention before the handler runs; on
a handler exception only mode kRun converts the lock file (to .incp or
.fail); the working directory is changed back to the run root only on the
success path. -/
def do_task (env : Env) (mode : TaskMode) (task_phase task_index : Nat)
    (clobber : Option String) (handler : FS → HandlerOutcome × FS) (st : FS) :
    DoTaskResult :=
  if mode ≠ TaskMode.kPrerun then
    match get_lock env clobber (.num task_index) task_phase st with
    | (false, st1) => { result := .error .lockContention, fs := st1 }
    | (true, st1) => do_task_body env mode task_phase task_index handler st1
  else
    do_task_body env mode task_phase task_index handler st

structure ArchiveResult where
  lock_success : Bool
  handler_invoked : Bool
  fs : FS
deriving DecidableEq, Repr

/-- do_archive from task.py.  It calls get_lock with the pseudo task index
"ARCH" but never inspects the returned flag; the archive phase handler is
then invoked unconditionally, the lock is finalized, and the working
directory is changed back to the run root. -/
def do_archive (env : Env) (clobber : Option String) (task_phase : Nat)
    (handler : FS → FS) (fs : FS) : ArchiveResult :=
  let locked := get_lock env clobber (.str "ARCH") task_phase fs
  let fs1 := handler locked.2
  let fs2 := finalize_lock env (.str "ARCH") task_phase fs1
  { lock_success := locked.1
    handler_invoked := true
    fs := { fs2 with cwd := env.task_root_dir } }

/-- Per-attempt oracles for the normal run loop: how get_lock's clash window
behaves for the attempt on a given task index, what the phase handler does
there, and the wall-clock readings at timer start and stop. -/
structure RunOracles where
  clobber : Nat → Option String
  handler : Nat → FS → HandlerOutcome × FS
  clock_start : Nat → ℚ
  clock_stop : Nat → ℚ

inductive StopReason where
  | countLimit
  | exhausted
  | timeLimit
  | taskError (e : TaskErr)
  | seekError (e : PyErr)
  | timerError
deriving DecidableEq, Repr

/-- How one attempted task in the run loop ended. -/
inductive AttemptOutcome where
  | yielded
  | completed
  | errored
deriving DecidableEq, Repr

/-- One attempted task in the run loop trace. -/
structure Attempt where
  index : Nat
  outcome : AttemptOutcome
deriving DecidableEq, Repr

structure RunLoopResult where
  reason : StopReason
  task_count : Nat
  timer : TaskTimer
  fs : FS
  trace : List Attempt
deriving Repr

/-- The while loop of invoke_tasks_run from task.py, one recursive step per
iteration.  The loop state is the last attempted index (for seeking), the
tally of completed tasks, the timer, and the filesystem.  LockContention
from do_task cancels the in-flight timing and continues the loop; any other
do_task exception propagates (recorded as the stop reason); timer misuse
(RuntimeError) cannot occur along these paths but is represented. -/
def invoke_tasks_run_loop (tasks : List TaskRec) (task_pool : Option String)
    (task_phase : Nat) (task_count_limit : Int) (mode : TaskMode)
    (orc : RunOracles) (env : Env) (prior : Int) (count : Nat)
    (timer : TaskTimer) (fs : FS) : RunLoopResult :=
  if ¬ (task_count_limit = -1 ∨ (count : Int) < task_count_limit) then
    { reason := .countLimit, task_count := count, timer := timer, fs := fs,
      trace := [] }
  else
    match hseek : seek_task fs tasks task_pool task_phase prior with
    | .error e =>
      { reason := .seekError e, task_count := count, timer := timer, fs := fs,
        trace := [] }
    | .ok (none, _) =>
      { reason := .exhausted, task_count := count, timer := timer, fs := fs,
        trace := [] }
    | .ok (some i, _) =>
      match timer.start_timer (orc.clock_start i) with
      | .error (.insufficientTime _) =>
        { reason := .timeLimit, task_count := count, timer := timer, fs := fs,
          trace := [] }
      | .error .runtimeError =>
        { reason := .timerError, task_count := count, timer := timer, fs := fs,
          trace := [] }
      | .ok timer1 =>
        let r := do_task env mode task_phase i (orc.clobber i) (orc.handler i) fs
        match r.result with
        | .error .lockContention =>
          match timer1.cancel_timer with
          | .error _ =>
            { reason := .timerError, task_count := count, timer := timer1,
              fs := r.fs, trace := [{ index := i, outcome := .yielded }] }
          | .ok timer2 =>
            let rest := invoke_tasks_run_loop tasks task_pool task_phase
              task_count_limit mode orc env i count timer2 r.fs
            { rest with trace := { index := i, outcome := .yielded } :: rest.trace }
        | .error e =>
          { reason := .taskError e, task_count := count, timer := timer1,
            fs := r.fs, trace := [{ index := i, outcome := .errored }] }
        | .ok _ =>
          match timer1.stop_timer (orc.clock_stop i) with
          | .error _ =>
            { reason := .timerError, task_count := count, timer := timer1,
              fs := r.fs, trace := [{ index := i, outcome := .errored }] }
          | .ok (_, timer2) =>
            let rest := invoke_tasks_run_loop tasks task_pool task_phase
              task_count_limit mode orc env i (count + 1) timer2 r.fs
            { rest with trace := { index := i, outcome := .completed } :: rest.trace }
termination_by tasks.length - (prior + 1).toNat
decreasing_by
  all_goals
    have hb := seek_task_bounds fs tasks task_pool task_phase prior i _ hseek
    omega

/-- invoke_tasks_run from task.py: start the scan at start_index - 1 with a
fresh timer (safety factor 1.1, minimum time 60), zero task count. -/
def invoke_tasks_run (tasks : List TaskRec) (task_pool : Option String)
    (task_phase : Nat) (task_start_index : Int) (task_count_limit : Int)
    (mode : TaskMode) (orc : RunOracles) (env : Env)
    (remaining_time now0 : ℚ) (fs : FS) : RunLoopResult :=
  invoke_tasks_run_loop tasks task_pool task_phase task_count_limit mode orc
    env (task_start_index - 1) 0
    (TaskTimer.init remaining_time now0 (11 / 10) 60) fs

/-- Number of completed (counted) attempts in a run loop trace. -/
def completed_count (tr : List Attempt) : Nat :=
  (tr.filter (fun a => a.outcome == AttemptOutcome.completed)).length

/-- The diagnostic condition in seek_task's scan: a pool-matched candidate
with workable status whose previous phase is not Done. -/
def seek_diag_cond (fs : FS) (tasks : List TaskRec) (task_pool : Option String)
    (task_phase : Nat) (i : Nat) : Prop :=
  match_pool (tasks.getD i dfltTask).pool task_pool = .ok true ∧
  (task_status (.num i) task_phase (tasks.getD i dfltTask).mask fs = .kPending ∨
    task_status (.num i) task_phase (tasks.getD i dfltTask).mask fs = .kIncomplete) ∧
  task_phase > 0 ∧
  task_status (.num i) (task_phase - 1) (tasks.getD i dfltTask).mask fs ≠ .kDone

/-- Concrete interactive-mode environment for witnesses. -/
def cEnvI : Env :=
  { job_id := "j1", batch_mode := false, asctime := "T",
    task_root_dir := "/w", task_time_str := "1.00" }

/-- Concrete batch-mode environment for witnesses. -/
def cEnvB : Env := { cEnvI with batch_mode := true }

/-- Concrete empty flag directory for witnesses. -/
def cFs0 : FS := { files := [], cwd := "/w" }

/-- Concrete phase handler that raises an ordinary exception. -/
def cHandlerFail : FS → HandlerOutcome × FS := fun s => (.failure, s)

/-- Concrete phase handler that returns normally. -/
def cHandlerOk : FS → HandlerOutcome × FS := fun s => (.ok, s)

/-- Concrete one-task list for witnesses. -/
def cTasks1 : List TaskRec := [{ pool := some "p", mask := true }]

/-- Concrete oracles for run loop witnesses: locks never clash, handlers
return normally, the clock is frozen. -/
def cOrc : RunOracles :=
  { clobber := fun _ => none
    handler := fun _ => cHandlerOk
    clock_start := fun _ => 0
    clock_stop := fun _ => 0 }

-- ## Supporting lemmas

theorem find_filter_ne (l : List (String × String)) (name m : String) (h : m ≠ name) :
    (l.filter (fun e => e.1 != name)).find? (fun e => e.1 == m) =
      l.find? (fun e => e.1 == m) := by
  induction l with
  | nil => rfl
  | cons e rest ih =>
    by_cases he : e.1 = name
    · have hq : (e.1 != name) = false := by simp [he]
      have hp : (e.1 == m) = false := by
        simp only [beq_eq_false_iff_ne, ne_eq, he]
        exact fun hc => h hc.symm
      simp [List.filter_cons, hq, List.find?, hp, ih]
    · have hq : List.filter (fun e => e.1 != name) (e :: rest) =
          e :: List.filter (fun e => e.1 != name) rest := by
        simp [List.filter_cons, he]
      by_cases hp : e.1 = m
      · rw [hq]
        simp [List.find?, hp]
      · have hp' : (e.1 == m) = false := by simp [hp]
        rw [hq]
        simp [List.find?, hp', ih]

theorem FS.lookup_writeFile (fs : FS) (name content m : String) :
    (fs.writeFile name content).lookup m =
      if m = name then some content else fs.lookup m := by
  unfold FS.writeFile FS.lookup
  by_cases h : m = name
  · subst h
    simp [List.find?]
  · have hne : (name == m) = false := by
      simp only [beq_eq_false_iff_ne, ne_eq]
      exact fun hc => h hc.symm
    simp only [List.find?, hne, if_neg h]
    rw [find_filter_ne _ _ _ h]

theorem FS.lookup_removeFile (fs : FS) (name m : String) :
    (fs.removeFile name).lookup m = if m = name then none else fs.lookup m := by
  unfold FS.removeFile FS.lookup
  by_cases h : m = name
  · subst h
    simp only [if_pos rfl]
    induction fs.files with
    | nil => rfl
    | cons e rest ih =>
      by_cases he : e.1 = m
      · simp only [List.filter_cons, he]
        simp only [bne_self_eq_false, Bool.false_eq_true, if_false]
        exact ih
      · have hq : (e.1 != m) = true := by simp [he]
        have hp : (e.1 == m) = false := by simp [he]
        simp only [List.filter_cons, hq, if_pos rfl] at ih ⊢
        simp only [List.find?, hp]
        exact ih
  · rw [if_neg h, find_filter_ne _ _ _ h]

theorem FS.lookup_appendFile (fs : FS) (name content m : String) :
    (fs.appendFile name content).lookup m =
      if m = name then some (((fs.lookup name).getD "") ++ content) else fs.lookup m := by
  unfold FS.appendFile
  cases h : fs.lookup name with
  | some old => rw [FS.lookup_writeFile]; rfl
  | none =>
    rw [FS.lookup_writeFile]
    by_cases hm : m = name <;> simp [hm]

theorem FS.pathExists_writeFile (fs : FS) (name content m : String) :
    (fs.writeFile name content).pathExists m =
      if m = name then true else fs.pathExists m := by
  unfold FS.pathExists
  rw [FS.lookup_writeFile]
  by_cases h : m = name <;> simp [h]

theorem FS.pathExists_appendFile (fs : FS) (name content m : String) :
    (fs.appendFile name content).pathExists m =
      if m = name then true else fs.pathExists m := by
  unfold FS.pathExists
  rw [FS.lookup_appendFile]
  by_cases h : m = name <;> simp [h]

theorem FS.pathExists_removeFile (fs : FS) (name m : String) :
    (fs.removeFile name).pathExists m =
      if m = name then false else fs.pathExists m := by
  unfold FS.pathExists
  rw [FS.lookup_removeFile]
  by_cases h : m = name <;> simp [h]

theorem FS.cwd_writeFile (fs : FS) (name content : String) :
    (fs.writeFile name content).cwd = fs.cwd := rfl

theorem FS.cwd_appendFile (fs : FS) (name content : String) :
    (fs.appendFile name content).cwd = fs.cwd := by
  unfold FS.appendFile
  cases fs.lookup name <;> rfl

theorem FS.cwd_removeFile (fs : FS) (name : String) :
    (fs.removeFile name).cwd = fs.cwd := rfl

/-- Two strings with distinct suffix data stay distinct after appending to a
common prefix; used to tell the .lock/.fail/.incp/.done names apart. -/
theorem append_right_ne (base s t : String) (h : s.data ≠ t.data) :
    base ++ s ≠ base ++ t := by
  intro he
  apply h
  have hd := congrArg String.data he
  rw [String.data_append, String.data_append] at hd
  exact List.append_cancel_left hd

theorem flag_ext_ne_lock_fail (base : String) : base ++ ".lock" ≠ base ++ ".fail" := by
  apply append_right_ne
  decide

theorem flag_ext_ne_lock_incp (base : String) : base ++ ".lock" ≠ base ++ ".incp" := by
  apply append_right_ne
  decide

theorem flag_ext_ne_lock_done (base : String) : base ++ ".lock" ≠ base ++ ".done" := by
  apply append_right_ne
  decide

theorem flag_ext_ne_fail_incp (base : String) : base ++ ".fail" ≠ base ++ ".incp" := by
  apply append_right_ne
  decide

theorem flag_ext_ne_fail_done (base : String) : base ++ ".fail" ≠ base ++ ".done" := by
  apply append_right_ne
  decide

theorem flag_ext_ne_incp_done (base : String) : base ++ ".incp" ≠ base ++ ".done" := by
  apply append_right_ne
  decide

theorem FS.pathExists_only_files (fs gs : FS) (h : fs.files = gs.files)
    (m : String) : fs.pathExists m = gs.pathExists m := by
  cases fs
  cases gs
  simp only at h
  subst h
  rfl

theorem FS.lookup_only_files (fs gs : FS) (h : fs.files = gs.files)
    (m : String) : fs.lookup m = gs.lookup m := by
  cases fs
  cases gs
  simp only at h
  subst h
  rfl

theorem filter_idem (p : String × String → Bool) (l : List (String × String)) :
    (l.filter p).filter p = l.filter p := by
  induction l with
  | nil => rfl
  | cons e rest ih =>
    by_cases h : p e
    · simp [List.filter_cons, h, ih]
    · simp [List.filter_cons, h, ih]

theorem FS.writeFile_writeFile (fs : FS) (name a b : String) :
    (fs.writeFile name a).writeFile name b = fs.writeFile name b := by
  unfold FS.writeFile
  simp [List.filter_cons, filter_idem]

theorem FS.cwd_rename (fs fs' : FS) (a b : String)
    (h : fs.rename a b = .ok fs') : fs'.cwd = fs.cwd := by
  unfold FS.rename at h
  cases hl : fs.lookup a with
  | none => rw [hl] at h; exact absurd h (by simp)
  | some c =>
    rw [hl] at h
    simp only [Except.ok.injEq] at h
    subst h
    rfl

theorem FS.rename_of_lookup (fs : FS) (a b c : String)
    (h : fs.lookup a = some c) :
    fs.rename a b = .ok ((fs.removeFile a).writeFile b c) := by
  unfold FS.rename
  rw [h]

theorem get_lock_fst (env : Env) (clobber : Option String)
    (task_index : TaskIndex) (task_phase : Nat) (fs : FS) :
    (get_lock env clobber task_index task_phase fs).1 =
      (!env.batch_mode || (readline (clobber.getD env.job_id) == env.job_id)) := by
  unfold get_lock
  cases hb : env.batch_mode with
  | false => simp
  | true =>
    cases clobber with
    | none =>
      simp only [Option.getD, Bool.not_true, Bool.false_or]
      rw [FS.lookup_writeFile]
      simp only [if_pos rfl, Option.getD_some]
      cases hc : (readline env.job_id == env.job_id) <;> simp [hc]
    | some c =>
      simp only [Option.getD_some, Bool.not_true, Bool.false_or]
      rw [FS.lookup_writeFile]
      simp only [if_pos rfl, Option.getD_some]
      cases hc : (readline c == env.job_id) <;> simp [hc]

theorem FS.appendFile_writeFile (fs : FS) (name a b : String) :
    (fs.writeFile name a).appendFile name b = fs.writeFile name (a ++ b) := by
  unfold FS.appendFile
  rw [FS.lookup_writeFile]
  simp [FS.writeFile_writeFile]

theorem get_lock_true_state (env : Env) (clobber : Option String)
    (task_index : TaskIndex) (task_phase : Nat) (fs : FS)
    (h : (get_lock env clobber task_index task_phase fs).1 = true) :
    (get_lock env clobber task_index task_phase fs).2 =
      (let flag_base := task_flag_base task_index task_phase
       let cur := if env.batch_mode then clobber.getD env.job_id else env.job_id
       let fs2 := fs.writeFile (flag_base ++ ".lock")
         (cur ++ ("\n" ++ flag_base ++ "\n" ++ env.asctime ++ "\n"))
       if fs2.pathExists (flag_base ++ ".incp") then
         fs2.removeFile (flag_base ++ ".incp") else fs2) := by
  rw [get_lock_fst] at h
  unfold get_lock
  cases hb : env.batch_mode with
  | false =>
    simp only [hb]
    simp only [Bool.false_eq_true, if_false]
    rw [FS.appendFile_writeFile]
    simp
  | true =>
    rw [hb] at h
    simp only [Bool.not_true, Bool.false_or] at h
    cases clobber with
    | none =>
      simp only [hb, if_true, Option.getD_none]
      simp only [Option.getD] at h
      rw [FS.lookup_writeFile]
      simp only [if_pos rfl, Option.getD_some, h, if_true]
      rw [FS.appendFile_writeFile]
    | some c =>
      simp only [hb, if_true]
      simp only [Option.getD_some] at h
      simp only [FS.writeFile_writeFile]
      rw [FS.lookup_writeFile]
      simp only [if_pos rfl, Option.getD_some, h, if_true]
      rw [FS.appendFile_writeFile]

theorem get_lock_cwd (env : Env) (clobber : Option String)
    (task_index : TaskIndex) (task_phase : Nat) (fs : FS) :
    (get_lock env clobber task_index task_phase fs).2.cwd = fs.cwd := by
  unfold get_lock
  cases clobber <;> cases hb : env.batch_mode <;>
    simp only [hb, Bool.false_eq_true, if_false, if_true] <;>
    (repeat' split) <;>
    simp [FS.cwd_removeFile, FS.cwd_appendFile, FS.cwd_writeFile]

theorem get_lock_true_lock_content (env : Env) (clobber : Option String)
    (task_index : TaskIndex) (task_phase : Nat) (fs : FS)
    (h : (get_lock env clobber task_index task_phase fs).1 = true) :
    (get_lock env clobber task_index task_phase fs).2.lookup
        (task_flag_base task_index task_phase ++ ".lock") =
      some ((if env.batch_mode then clobber.getD env.job_id else env.job_id) ++
        ("\n" ++ task_flag_base task_index task_phase ++ "\n" ++
          env.asctime ++ "\n")) := by
  rw [get_lock_true_state env clobber task_index task_phase fs h]
  simp only []
  have hne := flag_ext_ne_lock_incp (task_flag_base task_index task_phase)
  (repeat' split) <;>
    simp [FS.lookup_removeFile, FS.lookup_writeFile, hne]

theorem get_lock_true_incp_absent (env : Env) (clobber : Option String)
    (task_index : TaskIndex) (task_phase : Nat) (fs : FS)
    (h : (get_lock env clobber task_index task_phase fs).1 = true) :
    (get_lock env clobber task_index task_phase fs).2.pathExists
        (task_flag_base task_index task_phase ++ ".incp") = false := by
  rw [get_lock_true_state env clobber task_index task_phase fs h]
  simp only []
  (repeat' split) <;>
    simp_all [FS.pathExists_removeFile]

theorem get_lock_lookup_other (env : Env) (clobber : Option String)
    (task_index : TaskIndex) (task_phase : Nat) (fs : FS) (m : String)
    (h1 : m ≠ task_flag_base task_index task_phase ++ ".lock")
    (h2 : m ≠ task_flag_base task_index task_phase ++ ".incp") :
    (get_lock env clobber task_index task_phase fs).2.lookup m = fs.lookup m := by
  unfold get_lock
  cases clobber <;> cases hb : env.batch_mode <;>
    simp only [hb, Bool.false_eq_true, if_false, if_true] <;>
    (repeat' split) <;>
    simp [FS.lookup_removeFile, FS.lookup_appendFile, FS.lookup_writeFile,
      h1, h2]

theorem contains_map_fst (l : List (String × String)) (m : String) :
    (l.map Prod.fst).contains m = (l.find? (fun e => e.1 == m)).isSome := by
  induction l with
  | nil => rfl
  | cons e rest ih =>
    by_cases h : e.1 = m
    · simp [List.contains_cons, List.find?, h]
    · have hf : (e.1 == m) = false := by simp [h]
      have hm : (m == e.1) = false := by
        simp only [beq_eq_false_iff_ne, ne_eq]
        exact fun hc => h hc.symm
      rw [List.map_cons, List.contains_cons, hm, Bool.false_or, List.find?]
      rw [hf]
      exact ih

-- ## Claim theorems

/-- Claim C7: get_lock never raises for an ordinary lock clash.  In batch
mode it writes the job id, re-reads after the delay, and returns false
exactly when the first line it reads back differs from the job id just
written; in interactive mode the re-check is skipped and it returns true;
whenever it returns true it has appended the flag-base name and the
timestamp to the lock file and the .incp file for the same task and phase
is absent. -/
theorem c7_get_lock_clash_yield (env : Env) (clobber : Option String)
    (task_index : TaskIndex) (task_phase : Nat) (fs : FS) :
    (env.batch_mode = false →
      (get_lock env clobber task_index task_phase fs).1 = true) ∧
    (env.batch_mode = true →
      ((get_lock env clobber task_index task_phase fs).1 = false ↔
        readline (clobber.getD env.job_id) ≠ env.job_id)) ∧
    ((get_lock env clobber task_index task_phase fs).1 = true →
      (get_lock env clobber task_index task_phase fs).2.lookup
          (task_flag_base task_index task_phase ++ ".lock") =
        some ((if env.batch_mode then clobber.getD env.job_id else env.job_id) ++
          ("\n" ++ task_flag_base task_index task_phase ++ "\n" ++
            env.asctime ++ "\n")) ∧
      (get_lock env clobber task_index task_phase fs).2.pathExists
          (task_flag_base task_index task_phase ++ ".incp") = false) := by
  refine ⟨?_, ?_, ?_⟩
  · intro hb
    rw [get_lock_fst, hb]
    simp
  · intro hb
    rw [get_lock_fst, hb]
    simp
  · intro h
    exact ⟨get_lock_true_lock_content env clobber task_index task_phase fs h,
      get_lock_true_incp_absent env clobber task_index task_phase fs h⟩

/-- Witness for C7: a concrete batch-mode clash yields the lock, and a
concrete interactive acquisition leaves no .incp file. -/
theorem c7_get_lock_clash_yield_w :
    (get_lock cEnvB (some "j2") (.num 0) 0 cFs0).1 = false ∧
    (get_lock cEnvI none (.num 0) 0 cFs0).2.pathExists "task-0000-0.incp"
      = false := by
  constructor
  · exact ((c7_get_lock_clash_yield cEnvB (some "j2") (.num 0) 0 cFs0).2.1
      rfl).mpr (by decide)
  · exact ((c7_get_lock_clash_yield cEnvI none (.num 0) 0 cFs0).2.2
      (by decide)).2

/-- Claim C10: when the flag_dir_list argument is exactly the file names in
the flag directory, the directory-listing branch of task_status agrees with
the filesystem-probing branch, and the probing branch checks .lock, .fail,
.incp, .done in that order before falling back to Masked or Pending. -/
theorem c10_task_status_agree (task_index : TaskIndex) (task_phase : Nat)
    (task_mask : Bool) (fs : FS) (flag_dir_list : List String)
    (h : flag_dir_list = fs.files.map Prod.fst) :
    task_status_from_list task_index task_phase task_mask flag_dir_list =
      task_status task_index task_phase task_mask fs ∧
    task_status task_index task_phase task_mask fs =
      (if fs.pathExists (task_flag_base task_index task_phase ++ ".lock")
        then .kLocked
       else if fs.pathExists (task_flag_base task_index task_phase ++ ".fail")
        then .kFailed
       else if fs.pathExists (task_flag_base task_index task_phase ++ ".incp")
        then .kIncomplete
       else if fs.pathExists (task_flag_base task_index task_phase ++ ".done")
        then .kDone
       else if !task_mask then .kMasked
       else .kPending) := by
  subst h
  constructor
  · unfold task_status_from_list task_status FS.pathExists FS.lookup
    simp only [contains_map_fst, Option.isSome_map']
  · rfl

/-- Concrete flag directory holding one done flag, for the C10 witness. -/
def cFsDone : FS := { files := [("task-0000-0.done", "x")], cwd := "/w" }

/-- Witness for C10 at a concrete directory listing. -/
theorem c10_task_status_agree_w :
    task_status_from_list (.num 0) 0 true ["task-0000-0.done"] =
      task_status (.num 0) 0 true cFsDone :=
  (c10_task_status_agree (.num 0) 0 true cFsDone ["task-0000-0.done"]
    (by decide)).1

theorem start_timer_insufficient_iff (t : TaskTimer) (now : ℚ) :
    (t.start_timer now = .error (.insufficientTime t.required_time) ↔
      t.required_time > t.remaining_time now) := by
  unfold TaskTimer.start_timer
  constructor
  · intro h
    by_contra hc
    rw [if_neg hc] at h
    split at h <;> simp_all
  · intro h
    rw [if_pos h]

/-- Claim C5: start_timer raises InsufficientTime exactly when required_time
exceeds remaining_time, with required_time the safety-factored maximum of
average and last timings floored at minimum_time (0 standing in for average
and last when no timings are recorded); concretely, remaining_time 10 with
one recorded duration of 20 raises, and remaining_time 1000 with no recorded
durations starts successfully. -/
theorem c5_timer_gating :
    (∀ (t : TaskTimer) (now : ℚ),
      (t.start_timer now = .error (.insufficientTime t.required_time) ↔
        t.required_time > t.remaining_time now)) ∧
    (∀ t : TaskTimer,
      t.required_time =
        max (t.average_time * t.safety_factor)
          (max (t.last_time * t.safety_factor) t.minimum_time)) ∧
    (∀ t : TaskTimer, t.timings = [] → t.average_time = 0 ∧ t.last_time = 0) ∧
    ({ TaskTimer.init 10 0 (11 / 10) 60 with timings := [20] }.start_timer 0 =
      .error (.insufficientTime 60)) ∧
    (∃ t1, (TaskTimer.init 1000 0 (11 / 10) 60).start_timer 0 = .ok t1) := by
  refine ⟨start_timer_insufficient_iff, fun t => rfl, ?_, ?_, ?_⟩
  · intro t ht
    unfold TaskTimer.average_time TaskTimer.last_time
    rw [ht]
    simp
  · have hreq : ({ TaskTimer.init 10 0 (11 / 10) 60 with
        timings := [20] } : TaskTimer).required_time = 60 := by
      unfold TaskTimer.required_time TaskTimer.average_time TaskTimer.last_time
      simp [TaskTimer.init]
      norm_num
    have hrem : ({ TaskTimer.init 10 0 (11 / 10) 60 with
        timings := [20] } : TaskTimer).remaining_time 0 = 10 := by
      unfold TaskTimer.remaining_time
      simp [TaskTimer.init]
    conv_rhs => rw [← hreq]
    exact (start_timer_insufficient_iff _ 0).mpr (by rw [hreq, hrem]; norm_num)
  · refine ⟨{ TaskTimer.init 1000 0 (11 / 10) 60 with
      task_start_time := some 0 }, ?_⟩
    have h1 : ¬ ((TaskTimer.init 1000 0 (11 / 10) 60).required_time >
        (TaskTimer.init 1000 0 (11 / 10) 60).remaining_time 0) := by
      unfold TaskTimer.required_time TaskTimer.average_time TaskTimer.last_time
        TaskTimer.remaining_time
      simp [TaskTimer.init]
      norm_num
    unfold TaskTimer.start_timer
    rw [if_neg h1]
    simp [TaskTimer.init]

/-- Witness for C5: the general gate applied at a concrete timer whose
minimum-time floor exceeds its remaining time. -/
theorem c5_timer_gating_w :
    (TaskTimer.init 59 0 (11 / 10) 60).start_timer 0 =
      .error (.insufficientTime ((TaskTimer.init 59 0 (11 / 10) 60
        ).required_time)) := by
  apply (c5_timer_gating.1 _ 0).mpr
  have hreq : (TaskTimer.init 59 0 (11 / 10) 60).required_time = 60 := by
    unfold TaskTimer.required_time TaskTimer.average_time TaskTimer.last_time
    simp [TaskTimer.init]
  have hrem : (TaskTimer.init 59 0 (11 / 10) 60).remaining_time 0 = 59 := by
    unfold TaskTimer.remaining_time
    simp [TaskTimer.init]
  rw [hreq, hrem]
  norm_num

/-- Counterexample for C6: the claim says match_pool(p, None) is false for a
non-None pool p, but the code calls None.split and raises AttributeError
instead of returning false. -/
theorem c6_match_pool_none_pattern_cex :
    match_pool (some "a") none = .error .attributeError ∧
    match_pool (some "a") none ≠ .ok false := by
  constructor
  · decide
  · decide

/-- Claim C6 as amended: the None pattern matches the None pool; the literal
pattern ALL matches every pool including None; otherwise the pattern is a
comma-separated list of shell globs matched case-sensitively and a string
pool matches iff some sub-pattern matches; but a non-None pool against the
None pattern raises AttributeError rather than returning false. -/
theorem c6_match_pool_semantics :
    (∀ p : Option String, match_pool p (some "ALL") = .ok true) ∧
    (match_pool none none = .ok true) ∧
    (∀ s : String, match_pool (some s) none = .error .attributeError) ∧
    (∀ p pats : String, pats ≠ "ALL" →
      match_pool (some p) (some pats) =
        .ok ((split_comma pats).any (fun pattern => fnmatchcase p pattern))) ∧
    (match_pool (some "a") (some "b,c") = .ok false) ∧
    (match_pool (some "abc") (some "a*") = .ok true) ∧
    (match_pool (some "ABC") (some "a*") = .ok false) := by
  refine ⟨?_, by decide, ?_, ?_, by decide, by decide, by decide⟩
  · intro p
    unfold match_pool
    cases p <;> simp
  · intro s
    unfold match_pool
    simp
  · intro p pats hne
    unfold match_pool
    have h1 : (some pats == (none : Option String)) = false := by simp
    have h2 : (some pats == some "ALL") = false := by simp [hne]
    simp only [h1, Bool.false_and, Bool.false_eq_true, if_false, h2]

/-- Witness for C6: the glob clause applied at a concrete non-ALL pattern. -/
theorem c6_match_pool_semantics_w :
    match_pool (some "a") (some "b,c") =
      .ok ((split_comma "b,c").any (fun pattern => fnmatchcase "a" pattern)) :=
  c6_match_pool_semantics.2.2.2.1 "a" "b,c" (by decide)

/-- Counterexample for C1: in batch mode with another process overwriting
the ARCH lock during the clash window, get_lock returns false, yet
do_archive still invokes the archive phase handler. -/
theorem c1_archive_lock_cex :
    (get_lock cEnvB (some "j2") (.str "ARCH") 0 cFs0).1 = false ∧
    (do_archive cEnvB (some "j2") 0 (fun s => s) cFs0).handler_invoked
      = true := by
  constructor
  · decide
  · rfl

/-- Claim C1 as amended: do_archive acquires the lock for the reserved
pseudo task-index ARCH through the same get_lock protocol as ordinary
tasks, but it never checks the returned flag: the archive phase handler is
invoked regardless of whether the lock was obtained, the lock is then
finalized, and the working directory is changed back to the run root. -/
theorem c1_archive_lock_amended (env : Env) (clobber : Option String)
    (task_phase : Nat) (handler : FS → FS) (fs : FS) :
    (do_archive env clobber task_phase handler fs).handler_invoked = true ∧
    (do_archive env clobber task_phase handler fs).lock_success =
      (get_lock env clobber (.str "ARCH") task_phase fs).1 ∧
    (do_archive env clobber task_phase handler fs).fs =
      { finalize_lock env (.str "ARCH") task_phase
          (handler (get_lock env clobber (.str "ARCH") task_phase fs).2) with
        cwd := env.task_root_dir } := by
  exact ⟨rfl, rfl, rfl⟩

theorem do_task_of_ne_prerun (env : Env) (mode : TaskMode)
    (task_phase task_index : Nat) (clobber : Option String)
    (handler : FS → HandlerOutcome × FS) (st : FS)
    (h : mode ≠ TaskMode.kPrerun) :
    do_task env mode task_phase task_index clobber handler st =
      (match get_lock env clobber (.num task_index) task_phase st with
       | (false, st1) => { result := .error .lockContention, fs := st1 }
       | (true, st1) => do_task_body env mode task_phase task_index handler st1) := by
  unfold do_task
  rw [if_pos h]

/-- Counterexample for C2: with an ordinary handler exception, mode kRun
renames the lock to .fail while mode kOffline leaves the .lock file in
place, so the two modes do not perform the same flag-store transitions. -/
theorem c2_offline_flags_cex :
    (do_task cEnvI .kOffline 0 0 none cHandlerFail cFs0).fs.files ≠
      (do_task cEnvI .kRun 0 0 none cHandlerFail cFs0).fs.files ∧
    (do_task cEnvI .kOffline 0 0 none cHandlerFail cFs0).fs.pathExists
      "task-0000-0.lock" = true ∧
    (do_task cEnvI .kRun 0 0 none cHandlerFail cFs0).fs.pathExists
      "task-0000-0.fail" = true := by
  refine ⟨by decide, by decide, by decide⟩

/-- Claim C2 as amended: kOffline and kRun agree on lock acquisition (both
raise LockContention on the same clash, with the same state), propagate the
same exception, and coincide completely when the handler returns normally
(.lock renamed to .done in both); but on an InsufficientTime signal or any
other handler exception only kRun renames the lock file (to .incp or .fail
respectively) while kOffline leaves the .lock file in place.  The handler
is assumed not to touch the flag directory. -/
theorem c2_offline_vs_run_amended (env : Env) (task_phase task_index : Nat)
    (clobber : Option String) (handler : FS → HandlerOutcome × FS) (st : FS)
    (hpres : ∀ s, ((handler s).2).files = s.files) :
    ((do_task env .kOffline task_phase task_index clobber handler st).result =
      (do_task env .kRun task_phase task_index clobber handler st).result) ∧
    ((get_lock env clobber (.num task_index) task_phase st).1 = false →
      do_task env .kOffline task_phase task_index clobber handler st =
        do_task env .kRun task_phase task_index clobber handler st) ∧
    ((handler { (get_lock env clobber (.num task_index) task_phase st).2 with
        cwd := task_dir_name env.task_root_dir task_index }).1 = .ok →
      do_task env .kOffline task_phase task_index clobber handler st =
        do_task env .kRun task_phase task_index clobber handler st) ∧
    ((get_lock env clobber (.num task_index) task_phase st).1 = true →
      (handler { (get_lock env clobber (.num task_index) task_phase st).2 with
        cwd := task_dir_name env.task_root_dir task_index }).1 =
          .insufficientTime →
      (do_task env .kOffline task_phase task_index clobber handler st
        ).fs.pathExists
          (task_flag_base (.num task_index) task_phase ++ ".lock") = true ∧
      incomplete_lock (.num task_index) task_phase
          (do_task env .kOffline task_phase task_index clobber handler st).fs =
        .ok (do_task env .kRun task_phase task_index clobber handler st).fs) ∧
    ((get_lock env clobber (.num task_index) task_phase st).1 = true →
      (handler { (get_lock env clobber (.num task_index) task_phase st).2 with
        cwd := task_dir_name env.task_root_dir task_index }).1 = .failure →
      (do_task env .kOffline task_phase task_index clobber handler st
        ).fs.pathExists
          (task_flag_base (.num task_index) task_phase ++ ".lock") = true ∧
      fail_lock (.num task_index) task_phase
          (do_task env .kOffline task_phase task_index clobber handler st).fs =
        .ok (do_task env .kRun task_phase task_index clobber handler st).fs) := by
  have hOff := fun s => do_task_of_ne_prerun env .kOffline task_phase
    task_index clobber handler s (by simp)
  have hRun := fun s => do_task_of_ne_prerun env .kRun task_phase
    task_index clobber handler s (by simp)
  have hlockc := get_lock_true_lock_content env clobber (.num task_index)
    task_phase st
  simp only [hOff, hRun]
  rcases hgl : get_lock env clobber (.num task_index) task_phase st with ⟨b, stl⟩
  rw [hgl] at hlockc
  cases b with
  | false =>
    dsimp only
    refine ⟨rfl, fun _ => rfl, fun _ => rfl, ?_, ?_⟩ <;>
      (intro htrue; exact absurd htrue (by simp))
  | true =>
    dsimp only
    simp only [do_task_body]
    rcases hh : handler { stl with
      cwd := task_dir_name env.task_root_dir task_index } with ⟨out, sth⟩
    have hfiles : sth.files = stl.files := by
      have h1 := hpres { stl with
        cwd := task_dir_name env.task_root_dir task_index }
      rw [hh] at h1
      exact h1
    have hlook : sth.lookup
        (task_flag_base (.num task_index) task_phase ++ ".lock") =
        some ((if env.batch_mode then clobber.getD env.job_id else env.job_id) ++
          ("\n" ++ task_flag_base (.num task_index) task_phase ++ "\n" ++
            env.asctime ++ "\n")) := by
      rw [FS.lookup_only_files sth stl hfiles]
      exact hlockc rfl
    cases out with
    | ok =>
      refine ⟨by simp, ?_, fun _ => by simp, ?_, ?_⟩
      · intro hfalse
        exact absurd hfalse (by simp)
      · intro _ hout
        exact absurd hout (by simp)
      · intro _ hout
        exact absurd hout (by simp)
    | insufficientTime =>
      have hren : incomplete_lock (.num task_index) task_phase sth =
          .ok ((sth.removeFile
            (task_flag_base (.num task_index) task_phase ++ ".lock")).writeFile
            (task_flag_base (.num task_index) task_phase ++ ".incp")
            ((if env.batch_mode then clobber.getD env.job_id else env.job_id) ++
              ("\n" ++ task_flag_base (.num task_index) task_phase ++ "\n" ++
                env.asctime ++ "\n"))) := by
        unfold incomplete_lock
        exact FS.rename_of_lookup sth _ _ _ hlook
      refine ⟨by simp [hren], ?_, ?_, ?_, ?_⟩
      · intro hfalse
        exact absurd hfalse (by simp)
      · intro hout
        exact absurd hout (by simp)
      · intro _ _
        refine ⟨by simp [FS.pathExists, hlook], ?_⟩
        simp only [hren]
        exact hren
      · intro _ hout
        exact absurd hout (by simp)
    | failure =>
      have hren : fail_lock (.num task_index) task_phase sth =
          .ok ((sth.removeFile
            (task_flag_base (.num task_index) task_phase ++ ".lock")).writeFile
            (task_flag_base (.num task_index) task_phase ++ ".fail")
            ((if env.batch_mode then clobber.getD env.job_id else env.job_id) ++
              ("\n" ++ task_flag_base (.num task_index) task_phase ++ "\n" ++
                env.asctime ++ "\n"))) := by
        unfold fail_lock
        exact FS.rename_of_lookup sth _ _ _ hlook
      refine ⟨by simp [hren], ?_, ?_, ?_, ?_⟩
      · intro hfalse
        exact absurd hfalse (by simp)
      · intro hout
        exact absurd hout (by simp)
      · intro _ hout
        exact absurd hout (by simp)
      · intro _ _
        refine ⟨by simp [FS.pathExists, hlook], ?_⟩
        simp only [hren]
        exact hren

/-- Witness for C2: the amended equivalence applied to a concrete failing
handler in interactive mode. -/
theorem c2_offline_vs_run_amended_w :
    (do_task cEnvI .kOffline 0 0 none cHandlerFail cFs0).result =
      (do_task cEnvI .kRun 0 0 none cHandlerFail cFs0).result :=
  (c2_offline_vs_run_amended cEnvI 0 0 none cHandlerFail cFs0
    (fun _ => rfl)).1

theorem do_task_body_cwd (env : Env) (mode : TaskMode)
    (task_phase task_index : Nat) (handler : FS → HandlerOutcome × FS)
    (st : FS) (hcwd : ∀ s, ((handler s).2).cwd = s.cwd) :
    ((do_task_body env mode task_phase task_index handler st).result =
        .ok () →
      (do_task_body env mode task_phase task_index handler st).fs.cwd =
        env.task_root_dir) ∧
    ((do_task_body env mode task_phase task_index handler st).result ≠
      .error .lockContention) ∧
    (∀ e, (do_task_body env mode task_phase task_index handler st).result =
        .error e →
      (do_task_body env mode task_phase task_index handler st).fs.cwd =
        task_dir_name env.task_root_dir task_index) := by
  simp only [do_task_body]
  rcases hh : handler { st with
    cwd := task_dir_name env.task_root_dir task_index } with ⟨out, sth⟩
  have hsc : sth.cwd = task_dir_name env.task_root_dir task_index := by
    have h1 := hcwd { st with cwd := task_dir_name env.task_root_dir task_index }
    rw [hh] at h1
    exact h1
  cases out with
  | ok =>
    refine ⟨fun _ => rfl, by simp, ?_⟩
    intro e he
    exact absurd he (by simp)
  | insufficientTime =>
    by_cases hm : mode = TaskMode.kRun
    · simp only [hm, if_pos rfl]
      cases hri : incomplete_lock (.num task_index) task_phase sth with
      | ok st2 =>
        have h2 : st2.cwd = sth.cwd := by
          unfold incomplete_lock at hri
          exact FS.cwd_rename sth st2 _ _ hri
        simp only [if_true]
        refine ⟨?_, by simp, ?_⟩
        · intro h
          exact absurd h (by simp)
        · intro e _
          rw [h2, hsc]
      | error _ =>
        simp only [if_true]
        refine ⟨?_, by simp, ?_⟩
        · intro h
          exact absurd h (by simp)
        · intro e _
          exact hsc
    · dsimp only
      rw [if_neg hm]
      refine ⟨?_, by simp, ?_⟩
      · intro h
        exact absurd h (by simp)
      · intro e _
        exact hsc
  | failure =>
    by_cases hm : mode = TaskMode.kRun
    · simp only [hm, if_pos rfl]
      cases hri : fail_lock (.num task_index) task_phase sth with
      | ok st2 =>
        have h2 : st2.cwd = sth.cwd := by
          unfold fail_lock at hri
          exact FS.cwd_rename sth st2 _ _ hri
        simp only [if_true]
        refine ⟨?_, by simp, ?_⟩
        · intro h
          exact absurd h (by simp)
        · intro e _
          rw [h2, hsc]
      | error _ =>
        simp only [if_true]
        refine ⟨?_, by simp, ?_⟩
        · intro h
          exact absurd h (by simp)
        · intro e _
          exact hsc
    · dsimp only
      rw [if_neg hm]
      refine ⟨?_, by simp, ?_⟩
      · intro h
        exact absurd h (by simp)
      · intro e _
        exact hsc

/-- Counterexample for C3: when the handler raises an ordinary exception in
mode kRun, do_task propagates the exception with the working directory
still the per-task directory, not the run root. -/
theorem c3_cwd_restore_cex :
    (do_task cEnvI .kRun 0 0 none cHandlerFail cFs0).result =
      .error .handlerFailure ∧
    (do_task cEnvI .kRun 0 0 none cHandlerFail cFs0).fs.cwd ≠
      cEnvI.task_root_dir ∧
    (do_task cEnvI .kRun 0 0 none cHandlerFail cFs0).fs.cwd =
      task_dir_name cEnvI.task_root_dir 0 := by
  refine ⟨by decide, by decide, by decide⟩

/-- Claim C3 as amended: do_task changes the working directory back to the
run root only on the handler-success path; when the handler raises
(insufficient time or any other exception) the exception propagates with
the working directory still the per-task directory; on lock contention the
working directory is unchanged.  The handler is assumed not to change the
working directory itself. -/
theorem c3_cwd_exit_paths_amended (env : Env) (mode : TaskMode)
    (task_phase task_index : Nat) (clobber : Option String)
    (handler : FS → HandlerOutcome × FS) (st : FS)
    (hcwd : ∀ s, ((handler s).2).cwd = s.cwd) :
    ((do_task env mode task_phase task_index clobber handler st).result =
        .ok () →
      (do_task env mode task_phase task_index clobber handler st).fs.cwd =
        env.task_root_dir) ∧
    ((do_task env mode task_phase task_index clobber handler st).result =
        .error .lockContention →
      (do_task env mode task_phase task_index clobber handler st).fs.cwd =
        st.cwd) ∧
    (∀ e, e ≠ TaskErr.lockContention →
      (do_task env mode task_phase task_index clobber handler st).result =
        .error e →
      (do_task env mode task_phase task_index clobber handler st).fs.cwd =
        task_dir_name env.task_root_dir task_index) := by
  by_cases hpre : mode = TaskMode.kPrerun
  · subst hpre
    unfold do_task
    rw [if_neg (by simp)]
    have hb := do_task_body_cwd env TaskMode.kPrerun task_phase task_index
      handler st hcwd
    refine ⟨hb.1, ?_, fun e _ he => hb.2.2 e he⟩
    intro h
    exact absurd h hb.2.1
  · rw [do_task_of_ne_prerun env mode task_phase task_index clobber handler
      st hpre]
    have hglc := get_lock_cwd env clobber (.num task_index) task_phase st
    rcases hgl : get_lock env clobber (.num task_index) task_phase st
      with ⟨b, stl⟩
    rw [hgl] at hglc
    cases b with
    | false =>
      dsimp only
      refine ⟨?_, ?_, ?_⟩
      · intro h
        exact absurd h (by simp)
      · intro _
        exact hglc
      · intro e he h
        simp only [Except.error.injEq] at h
        exact absurd h.symm he
    | true =>
      dsimp only
      have hb := do_task_body_cwd env mode task_phase task_index
        handler stl hcwd
      refine ⟨hb.1, ?_, fun e _ he => hb.2.2 e he⟩
      intro h
      exact absurd h hb.2.1

/-- Witness for C3: the amended exit-path behavior at a concrete failing
handler. -/
theorem c3_cwd_exit_paths_amended_w :
    (do_task cEnvI .kRun 0 0 none cHandlerFail cFs0).fs.cwd =
      task_dir_name cEnvI.task_root_dir 0 :=
  (c3_cwd_exit_paths_amended cEnvI .kRun 0 0 none cHandlerFail cFs0
    (fun _ => rfl)).2.2 .handlerFailure (by decide) (by decide)

theorem finalize_lock_spec (env : Env) (task_index : TaskIndex)
    (task_phase : Nat) (fs : FS) (c : String)
    (h : fs.lookup (task_flag_base task_index task_phase ++ ".lock") = some c) :
    finalize_lock env task_index task_phase fs =
      ((fs.appendFile (task_flag_base task_index task_phase ++ ".lock")
          (env.asctime ++ "\n" ++ env.task_time_str ++ "\n")).removeFile
        (task_flag_base task_index task_phase ++ ".lock")).writeFile
        (task_flag_base task_index task_phase ++ ".done")
        (c ++ (env.asctime ++ "\n" ++ env.task_time_str ++ "\n")) := by
  have h1 : (fs.appendFile (task_flag_base task_index task_phase ++ ".lock")
      (env.asctime ++ "\n" ++ env.task_time_str ++ "\n")).lookup
      (task_flag_base task_index task_phase ++ ".lock") =
      some (c ++ (env.asctime ++ "\n" ++ env.task_time_str ++ "\n")) := by
    rw [FS.lookup_appendFile]
    simp [h]
  simp only [finalize_lock]
  rw [FS.rename_of_lookup _ _ _ _ h1]

theorem seek_scan_some_spec (fs : FS) (tasks : List TaskRec)
    (task_pool : Option String) (task_phase : Nat) :
    ∀ (l : List Nat) (i : Nat) (log : List String),
      l.Pairwise (· < ·) →
      seek_scan fs tasks task_pool task_phase l = .ok (some i, log) →
      i ∈ l ∧ seek_eligible fs tasks task_pool task_phase i ∧
      (∀ j ∈ l, j < i → ¬ seek_eligible fs tasks task_pool task_phase j) ∧
      (∀ j ∈ l, j < i → seek_diag_cond fs tasks task_pool task_phase j →
        missing_prereq_msg j task_phase ∈ log) := by
  intro l
  induction l with
  | nil =>
    intro i log _ h
    simp [seek_scan] at h
  | cons x rest ih =>
    intro i log hpair h
    have hpr : rest.Pairwise (· < ·) := hpair.of_cons
    have hxlt : ∀ j ∈ rest, x < j := fun j hj =>
      (List.pairwise_cons.mp hpair).1 j hj
    unfold seek_scan at h
    cases hm : match_pool (tasks.getD x dfltTask).pool task_pool with
    | error e =>
      rw [hm] at h
      exact absurd h (by simp)
    | ok b =>
      rw [hm] at h
      cases b with
      | false =>
        have hnel : ¬ seek_eligible fs tasks task_pool task_phase x := by
          intro he
          rw [he.1] at hm
          exact absurd hm (by simp)
        obtain ⟨h1, h2, h3, h4⟩ := ih i log hpr h
        refine ⟨List.mem_cons_of_mem x h1, h2, ?_, ?_⟩
        · intro j hj hji
          rcases List.mem_cons.mp hj with hx | hr
          · subst hx
            exact hnel
          · exact h3 j hr hji
        · intro j hj hji hd
          rcases List.mem_cons.mp hj with hx | hr
          · subst hx
            rw [hd.1] at hm
            exact absurd hm (by simp)
          · exact h4 j hr hji hd
      | true =>
        simp only at h
        split at h
        · rename_i hst
          have hnel : ¬ seek_eligible fs tasks task_pool task_phase x := by
            intro he
            rcases he.2.1 with hp | hp <;> rw [hp] at hst <;> simp at hst
          have hnd : ¬ seek_diag_cond fs tasks task_pool task_phase x := by
            intro hd
            rcases hd.2.1 with hp | hp <;> rw [hp] at hst <;> simp at hst
          obtain ⟨h1, h2, h3, h4⟩ := ih i log hpr h
          refine ⟨List.mem_cons_of_mem x h1, h2, ?_, ?_⟩
          · intro j hj hji
            rcases List.mem_cons.mp hj with hx | hr
            · subst hx
              exact hnel
            · exact h3 j hr hji
          · intro j hj hji hd
            rcases List.mem_cons.mp hj with hx | hr
            · subst hx
              exact absurd hd hnd
            · exact h4 j hr hji hd
        · split at h
          · rename_i hst hpre
            cases hr : seek_scan fs tasks task_pool task_phase rest with
            | error e =>
              rw [hr] at h
              exact absurd h (by simp)
            | ok p =>
              obtain ⟨r, log1⟩ := p
              rw [hr] at h
              simp only [Except.ok.injEq, Prod.mk.injEq] at h
              obtain ⟨hri, hlog⟩ := h
              subst hri
              subst hlog
              have hnel : ¬ seek_eligible fs tasks task_pool task_phase x := by
                intro he
                exact hpre.2 (he.2.2 hpre.1)
              obtain ⟨h1, h2, h3, h4⟩ := ih i log1 hpr hr
              refine ⟨List.mem_cons_of_mem x h1, h2, ?_, ?_⟩
              · intro j hj hji
                rcases List.mem_cons.mp hj with hx | hrm
                · subst hx
                  exact hnel
                · exact h3 j hrm hji
              · intro j hj hji hd
                rcases List.mem_cons.mp hj with hx | hrm
                · subst hx
                  exact List.mem_cons_self _ _
                · exact List.mem_cons_of_mem _ (h4 j hrm hji hd)
          · rename_i hst hpre
            simp only [Except.ok.injEq, Prod.mk.injEq] at h
            obtain ⟨hri, hlog⟩ := h
            cases hri
            subst hlog
            have hel : seek_eligible fs tasks task_pool task_phase x := by
              refine ⟨hm, ?_, ?_⟩
              · rcases Decidable.not_and_iff_or_not.mp hst with hp | hp
                · exact Or.inl (Decidable.not_not.mp hp)
                · exact Or.inr (Decidable.not_not.mp hp)
              · intro hph
                by_contra hnd
                exact hpre ⟨hph, hnd⟩
            refine ⟨List.mem_cons_self _ _, hel, ?_, ?_⟩
            · intro j hj hji
              rcases List.mem_cons.mp hj with hx | hrm
              · subst hx
                exact absurd hji (lt_irrefl _)
              · exact absurd hji (not_lt_of_gt (hxlt j hrm))
            · intro j hj hji _
              rcases List.mem_cons.mp hj with hx | hrm
              · subst hx
                exact absurd hji (lt_irrefl _)
              · exact absurd hji (not_lt_of_gt (hxlt j hrm))

theorem seek_scan_none_spec (fs : FS) (tasks : List TaskRec)
    (task_pool : Option String) (task_phase : Nat) :
    ∀ (l : List Nat) (log : List String),
      seek_scan fs tasks task_pool task_phase l = .ok (none, log) →
      (∀ j ∈ l, ¬ seek_eligible fs tasks task_pool task_phase j) ∧
      (∀ j ∈ l, seek_diag_cond fs tasks task_pool task_phase j →
        missing_prereq_msg j task_phase ∈ log) := by
  intro l
  induction l with
  | nil =>
    intro log _
    exact ⟨fun j hj => absurd hj (List.not_mem_nil j),
      fun j hj => absurd hj (List.not_mem_nil j)⟩
  | cons x rest ih =>
    intro log h
    unfold seek_scan at h
    cases hm : match_pool (tasks.getD x dfltTask).pool task_pool with
    | error e =>
      rw [hm] at h
      exact absurd h (by simp)
    | ok b =>
      rw [hm] at h
      cases b with
      | false =>
        obtain ⟨h1, h2⟩ := ih log h
        refine ⟨?_, ?_⟩
        · intro j hj
          rcases List.mem_cons.mp hj with hx | hr
          · subst hx
            intro he
            rw [he.1] at hm
            exact absurd hm (by simp)
          · exact h1 j hr
        · intro j hj hd
          rcases List.mem_cons.mp hj with hx | hr
          · subst hx
            rw [hd.1] at hm
            exact absurd hm (by simp)
          · exact h2 j hr hd
      | true =>
        simp only at h
        split at h
        · rename_i hst
          obtain ⟨h1, h2⟩ := ih log h
          refine ⟨?_, ?_⟩
          · intro j hj
            rcases List.mem_cons.mp hj with hx | hr
            · subst hx
              intro he
              rcases he.2.1 with hp | hp <;> rw [hp] at hst <;> simp at hst
            · exact h1 j hr
          · intro j hj hd
            rcases List.mem_cons.mp hj with hx | hr
            · subst hx
              rcases hd.2.1 with hp | hp <;> rw [hp] at hst <;> simp at hst
            · exact h2 j hr hd
        · split at h
          · rename_i hst hpre
            cases hr : seek_scan fs tasks task_pool task_phase rest with
            | error e =>
              rw [hr] at h
              exact absurd h (by simp)
            | ok p =>
              obtain ⟨r, log1⟩ := p
              rw [hr] at h
              simp only [Except.ok.injEq, Prod.mk.injEq] at h
              obtain ⟨hri, hlog⟩ := h
              subst hri
              subst hlog
              obtain ⟨h1, h2⟩ := ih log1 hr
              refine ⟨?_, ?_⟩
              · intro j hj
                rcases List.mem_cons.mp hj with hx | hrm
                · subst hx
                  intro he
                  exact hpre.2 (he.2.2 hpre.1)
                · exact h1 j hrm
              · intro j hj hd
                rcases List.mem_cons.mp hj with hx | hrm
                · subst hx
                  exact List.mem_cons_self _ _
                · exact List.mem_cons_of_mem _ (h2 j hrm hd)
          · simp at h

theorem seek_scan_finds (fs : FS) (tasks : List TaskRec)
    (task_pool : Option String) (task_phase : Nat) :
    ∀ (l : List Nat) (j : Nat),
      l.Pairwise (· < ·) → j ∈ l →
      (∀ k ∈ l, k < j →
        match_pool (tasks.getD k dfltTask).pool task_pool = .ok false) →
      seek_eligible fs tasks task_pool task_phase j →
      seek_scan fs tasks task_pool task_phase l = .ok (some j, []) := by
  intro l
  induction l with
  | nil =>
    intro j _ hj
    exact absurd hj (List.not_mem_nil j)
  | cons x rest ih =>
    intro j hpair hj hbefore helig
    have hpr : rest.Pairwise (· < ·) := hpair.of_cons
    by_cases hx : x = j
    · subst hx
      unfold seek_scan
      rw [helig.1]
      simp only
      rw [if_neg, if_neg]
      · intro hpre
        exact hpre.2 (helig.2.2 hpre.1)
      · intro hst
        rcases helig.2.1 with hp | hp <;> rw [hp] at hst <;>
          simp at hst
    · have hjr : j ∈ rest := by
        rcases List.mem_cons.mp hj with h1 | h1
        · exact absurd h1.symm hx
        · exact h1
      have hxj : x < j := (List.pairwise_cons.mp hpair).1 j hjr
      unfold seek_scan
      rw [hbefore x (List.mem_cons_self _ _) hxj]
      exact ih j hpr hjr
        (fun k hk hkj => hbefore k (List.mem_cons_of_mem _ hk) hkj) helig

/-- Claim C4: seek_task scans only indices strictly greater than prior in
increasing order and, conditioned on the scan completing without a Python
exception, returns the first index whose pool matches, whose phase status
is Pending or Incomplete, and (for phase > 0) whose previous phase is Done,
printing a missing-prerequisite diagnostic for every pool-matched workable
candidate it skips for a missing prerequisite; it returns None when no such
index exists. -/
theorem c4_seek_task_selection (fs : FS) (tasks : List TaskRec)
    (task_pool : Option String) (task_phase : Nat) (prior : Int)
    (res : Option Nat) (log : List String)
    (h : seek_task fs tasks task_pool task_phase prior = .ok (res, log)) :
    (∀ i, res = some i →
      prior < (i : Int) ∧ i < tasks.length ∧
      seek_eligible fs tasks task_pool task_phase i ∧
      (∀ j : Nat, prior < (j : Int) → j < i →
        ¬ seek_eligible fs tasks task_pool task_phase j) ∧
      (∀ j : Nat, prior < (j : Int) → j < i →
        seek_diag_cond fs tasks task_pool task_phase j →
        missing_prereq_msg j task_phase ∈ log)) ∧
    (res = none →
      (∀ j : Nat, prior < (j : Int) → j < tasks.length →
        ¬ seek_eligible fs tasks task_pool task_phase j) ∧
      (∀ j : Nat, prior < (j : Int) → j < tasks.length →
        seek_diag_cond fs tasks task_pool task_phase j →
        missing_prereq_msg j task_phase ∈ log)) := by
  have hpair : ((List.range tasks.length).filter
      (fun i : Nat => prior < (i : Int))).Pairwise (· < ·) :=
    (List.pairwise_lt_range tasks.length).sublist (List.filter_sublist _)
  constructor
  · intro i hres
    subst hres
    obtain ⟨h1, h2, h3, h4⟩ := seek_scan_some_spec fs tasks task_pool
      task_phase _ i log hpair h
    simp only [List.mem_filter, List.mem_range, decide_eq_true_eq] at h1
    have hmem : ∀ j : Nat, prior < (j : Int) → j < i →
        j ∈ (List.range tasks.length).filter
          (fun i : Nat => prior < (i : Int)) := by
      intro j hp hji
      refine List.mem_filter.mpr ⟨List.mem_range.mpr ?_, by simp [hp]⟩
      omega
    exact ⟨h1.2, h1.1, h2, fun j hp hji => h3 j (hmem j hp hji) hji,
      fun j hp hji => h4 j (hmem j hp hji) hji⟩
  · intro hres
    subst hres
    obtain ⟨h1, h2⟩ := seek_scan_none_spec fs tasks task_pool task_phase
      _ log h
    have hmem : ∀ j : Nat, prior < (j : Int) → j < tasks.length →
        j ∈ (List.range tasks.length).filter
          (fun i : Nat => prior < (i : Int)) := by
      intro j hp hj
      exact List.mem_filter.mpr ⟨List.mem_range.mpr hj, by simp [hp]⟩
    exact ⟨fun j hp hj => h1 j (hmem j hp hj),
      fun j hp hj => h2 j (hmem j hp hj)⟩

/-- Witness for C4: the characterization applied to a concrete one-task
pool seek that selects index 0. -/
theorem c4_seek_task_selection_w :
    seek_eligible cFs0 cTasks1 (some "p") 0 0 :=
  ((c4_seek_task_selection cFs0 cTasks1 (some "p") 0 (-1) (some 0) []
    (by decide)).1 0 rfl).2.2.1

/-- Claim C8: after a successful get_lock (with no stale .fail flag),
finalize_lock yields status Done with the .lock file gone; fail_lock yields
status Failed; incomplete_lock yields status Incomplete and a subsequent
seek_task for the same phase (prior index below the task, pool matched,
prerequisite satisfied, no earlier pool-matched candidate) returns that
task index again. -/
theorem c8_flag_round_trips (env : Env) (clobber : Option String)
    (task_index : TaskIndex) (task_phase : Nat) (task_mask : Bool) (fs : FS)
    (hsucc : (get_lock env clobber task_index task_phase fs).1 = true)
    (hfail : fs.pathExists
      (task_flag_base task_index task_phase ++ ".fail") = false) :
    (task_status task_index task_phase task_mask
        (finalize_lock env task_index task_phase
          (get_lock env clobber task_index task_phase fs).2) = .kDone ∧
      (finalize_lock env task_index task_phase
          (get_lock env clobber task_index task_phase fs).2).pathExists
        (task_flag_base task_index task_phase ++ ".lock") = false) ∧
    (∃ fsf, fail_lock task_index task_phase
        (get_lock env clobber task_index task_phase fs).2 = .ok fsf ∧
      task_status task_index task_phase task_mask fsf = .kFailed) ∧
    (∃ fsi, incomplete_lock task_index task_phase
        (get_lock env clobber task_index task_phase fs).2 = .ok fsi ∧
      task_status task_index task_phase task_mask fsi = .kIncomplete ∧
      (∀ (tasks : List TaskRec) (task_pool : Option String) (prior : Int)
        (j : Nat),
        task_index = .num j → prior < (j : Int) → j < tasks.length →
        match_pool (tasks.getD j dfltTask).pool task_pool = .ok true →
        (tasks.getD j dfltTask).mask = task_mask →
        (task_phase > 0 →
          task_status (.num j) (task_phase - 1) task_mask fsi = .kDone) →
        (∀ k : Nat, prior < (k : Int) → k < j →
          match_pool (tasks.getD k dfltTask).pool task_pool = .ok false) →
        seek_task fsi tasks task_pool task_phase prior = .ok (some j, []))) := by
  have hC := get_lock_true_lock_content env clobber task_index task_phase
    fs hsucc
  have hincp := get_lock_true_incp_absent env clobber task_index task_phase
    fs hsucc
  have hfailg : (get_lock env clobber task_index task_phase fs).2.pathExists
      (task_flag_base task_index task_phase ++ ".fail") = false := by
    unfold FS.pathExists
    rw [get_lock_lookup_other env clobber task_index task_phase fs _
      (Ne.symm (flag_ext_ne_lock_fail _)) (flag_ext_ne_fail_incp _)]
    unfold FS.pathExists at hfail
    exact hfail
  have hnlf := flag_ext_ne_lock_fail (task_flag_base task_index task_phase)
  have hnli := flag_ext_ne_lock_incp (task_flag_base task_index task_phase)
  have hnld := flag_ext_ne_lock_done (task_flag_base task_index task_phase)
  have hnfi := flag_ext_ne_fail_incp (task_flag_base task_index task_phase)
  have hnfd := flag_ext_ne_fail_done (task_flag_base task_index task_phase)
  have hnid := flag_ext_ne_incp_done (task_flag_base task_index task_phase)
  set C := (if env.batch_mode then clobber.getD env.job_id else env.job_id) ++
    ("\n" ++ task_flag_base task_index task_phase ++ "\n" ++
      env.asctime ++ "\n") with hCdef
  refine ⟨?_, ?_, ?_⟩
  · rw [finalize_lock_spec env task_index task_phase _ _ hC]
    have hlock : (((((get_lock env clobber task_index task_phase fs
        ).2.appendFile (task_flag_base task_index task_phase ++ ".lock")
          (env.asctime ++ "\n" ++ env.task_time_str ++ "\n")).removeFile
        (task_flag_base task_index task_phase ++ ".lock")).writeFile
        (task_flag_base task_index task_phase ++ ".done")
        (C ++ (env.asctime ++ "\n" ++ env.task_time_str ++ "\n"))
        )).pathExists (task_flag_base task_index task_phase ++ ".lock")
        = false := by
      rw [FS.pathExists_writeFile, if_neg hnld, FS.pathExists_removeFile,
        if_pos rfl]
    constructor
    · simp only [task_status]
      rw [hlock]
      rw [FS.pathExists_writeFile, if_neg hnfd,
        FS.pathExists_removeFile, if_neg (Ne.symm hnlf),
        FS.pathExists_appendFile, if_neg (Ne.symm hnlf), hfailg]
      rw [FS.pathExists_writeFile, if_neg hnid,
        FS.pathExists_removeFile, if_neg (Ne.symm hnli),
        FS.pathExists_appendFile, if_neg (Ne.symm hnli), hincp]
      rw [FS.pathExists_writeFile, if_pos rfl]
      simp
    · exact hlock
  · refine ⟨((get_lock env clobber task_index task_phase fs).2.removeFile
        (task_flag_base task_index task_phase ++ ".lock")).writeFile
        (task_flag_base task_index task_phase ++ ".fail") C, ?_, ?_⟩
    · unfold fail_lock
      exact FS.rename_of_lookup _ _ _ _ hC
    · simp only [task_status]
      rw [FS.pathExists_writeFile, if_neg hnlf, FS.pathExists_removeFile,
        if_pos rfl]
      rw [FS.pathExists_writeFile, if_pos rfl]
      simp
  · refine ⟨((get_lock env clobber task_index task_phase fs).2.removeFile
        (task_flag_base task_index task_phase ++ ".lock")).writeFile
        (task_flag_base task_index task_phase ++ ".incp") C, ?_, ?_, ?_⟩
    · unfold incomplete_lock
      exact FS.rename_of_lookup _ _ _ _ hC
    · simp only [task_status]
      rw [FS.pathExists_writeFile, if_neg hnli, FS.pathExists_removeFile,
        if_pos rfl]
      rw [FS.pathExists_writeFile, if_neg hnfi,
        FS.pathExists_removeFile, if_neg (Ne.symm hnlf), hfailg]
      rw [FS.pathExists_writeFile, if_pos rfl]
      simp
    · intro tasks task_pool prior j hidx hprior hlen hmatch hmask hprereq
        hbefore
      subst hidx
      have helig : seek_eligible
          (((get_lock env clobber (.num j) task_phase fs).2.removeFile
            (task_flag_base (.num j) task_phase ++ ".lock")).writeFile
            (task_flag_base (.num j) task_phase ++ ".incp") C)
          tasks task_pool task_phase j := by
        refine ⟨hmatch, ?_, ?_⟩
        · right
          rw [hmask]
          simp only [task_status]
          rw [FS.pathExists_writeFile, if_neg hnli, FS.pathExists_removeFile,
            if_pos rfl]
          rw [FS.pathExists_writeFile, if_neg hnfi,
            FS.pathExists_removeFile, if_neg (Ne.symm hnlf), hfailg]
          rw [FS.pathExists_writeFile, if_pos rfl]
          simp
        · intro hph
          rw [hmask]
          exact hprereq hph
      unfold seek_task
      refine seek_scan_finds _ tasks task_pool task_phase _ j
        ((List.pairwise_lt_range tasks.length).sublist
          (List.filter_sublist _)) ?_ ?_ helig
      · exact List.mem_filter.mpr ⟨List.mem_range.mpr hlen, by simp [hprior]⟩
      · intro k hk hkj
        have hk2 := List.mem_filter.mp hk
        simp only [decide_eq_true_eq] at hk2
        exact hbefore k hk2.2 hkj

/-- Witness for C8 at a concrete successful interactive lock acquisition. -/
theorem c8_flag_round_trips_w :
    task_status (.num 0) 0 true
      (finalize_lock cEnvI (.num 0) 0
        (get_lock cEnvI none (.num 0) 0 cFs0).2) = .kDone :=
  (c8_flag_round_trips cEnvI none (.num 0) 0 true cFs0 (by decide)
    (by decide)).1.1

theorem start_timer_ok_state (t : TaskTimer) (now : ℚ) (t1 : TaskTimer)
    (h : t.start_timer now = .ok t1) :
    t1.timings = t.timings ∧ t1.task_start_time = some now := by
  unfold TaskTimer.start_timer at h
  split at h
  · exact absurd h (by simp)
  · split at h
    · exact absurd h (by simp)
    · simp only [Except.ok.injEq] at h
      subst h
      exact ⟨rfl, rfl⟩

theorem cancel_timer_of_some (t : TaskTimer) (s : ℚ)
    (h : t.task_start_time = some s) :
    t.cancel_timer = .ok { t with task_start_time := none } := by
  unfold TaskTimer.cancel_timer
  rw [h]

theorem stop_timer_of_some (t : TaskTimer) (s now : ℚ)
    (h : t.task_start_time = some s) :
    t.stop_timer now = .ok (now - s,
      { t with timings := t.timings ++ [now - s], task_start_time := none }) := by
  unfold TaskTimer.stop_timer
  rw [h]

theorem completed_count_nil : completed_count [] = 0 := rfl

theorem completed_count_cons (a : Attempt) (tr : List Attempt) :
    completed_count (a :: tr) =
      (if a.outcome = .completed then 1 else 0) + completed_count tr := by
  unfold completed_count
  rw [List.filter_cons]
  cases ho : a.outcome <;> (simp [ho]; try omega)

set_option maxHeartbeats 2000000 in
theorem invoke_tasks_run_loop_spec (tasks : List TaskRec)
    (task_pool : Option String) (task_phase : Nat) (task_count_limit : Int)
    (mode : TaskMode) (orc : RunOracles) (env : Env) :
    ∀ (prior : Int) (count : Nat) (timer : TaskTimer) (fs : FS),
      (invoke_tasks_run_loop tasks task_pool task_phase task_count_limit mode
          orc env prior count timer fs).task_count =
        count + completed_count (invoke_tasks_run_loop tasks task_pool
          task_phase task_count_limit mode orc env prior count timer fs).trace ∧
      (invoke_tasks_run_loop tasks task_pool task_phase task_count_limit mode
          orc env prior count timer fs).timer.timings.length =
        timer.timings.length + completed_count (invoke_tasks_run_loop tasks
          task_pool task_phase task_count_limit mode orc env prior count timer
          fs).trace ∧
      (∀ a ∈ (invoke_tasks_run_loop tasks task_pool task_phase
          task_count_limit mode orc env prior count timer fs).trace,
        prior < (a.index : Int)) ∧
      (invoke_tasks_run_loop tasks task_pool task_phase task_count_limit mode
          orc env prior count timer fs).trace.Pairwise
        (fun a b => a.index < b.index) ∧
      (invoke_tasks_run_loop tasks task_pool task_phase task_count_limit mode
          orc env prior count timer fs).reason ≠
        .taskError .lockContention ∧
      (task_count_limit ≠ -1 →
        ((invoke_tasks_run_loop tasks task_pool task_phase task_count_limit
            mode orc env prior count timer fs).task_count : Int) ≤
          max task_count_limit count) := by
  intro prior count timer fs
  induction prior, count, timer, fs using invoke_tasks_run_loop.induct
    tasks task_pool task_phase task_count_limit mode orc env with
  | case1 prior count timer fs hg =>
    unfold invoke_tasks_run_loop
    rw [if_pos hg]
    refine ⟨by simp [completed_count_nil], by simp [completed_count_nil],
      by simp, by simp, by simp, ?_⟩
    intro _
    exact le_max_right _ _
  | case2 prior count timer fs hg e hseek =>
    unfold invoke_tasks_run_loop
    rw [if_neg hg, hseek]
    dsimp only
    refine ⟨by simp [completed_count_nil], by simp [completed_count_nil],
      by simp, by simp, by simp, ?_⟩
    intro _
    exact le_max_right _ _
  | case3 prior count timer fs hg snd hseek =>
    unfold invoke_tasks_run_loop
    rw [if_neg hg, hseek]
    dsimp only
    refine ⟨by simp [completed_count_nil], by simp [completed_count_nil],
      by simp, by simp, by simp, ?_⟩
    intro _
    exact le_max_right _ _
  | case4 prior count timer fs hg i snd hseek req hstart =>
    unfold invoke_tasks_run_loop
    rw [if_neg hg, hseek]
    dsimp only
    rw [hstart]
    dsimp only
    refine ⟨by simp [completed_count_nil], by simp [completed_count_nil],
      by simp, by simp, by simp, ?_⟩
    intro _
    exact le_max_right _ _
  | case5 prior count timer fs hg i snd hseek hstart =>
    unfold invoke_tasks_run_loop
    rw [if_neg hg, hseek]
    dsimp only
    rw [hstart]
    dsimp only
    refine ⟨by simp [completed_count_nil], by simp [completed_count_nil],
      by simp, by simp, by simp, ?_⟩
    intro _
    exact le_max_right _ _
  | case6 prior count timer fs hg i snd hseek timer1 hstart r hres a hcancel =>
    exact absurd hcancel (by
      rw [cancel_timer_of_some timer1 (orc.clock_start i)
        (start_timer_ok_state timer (orc.clock_start i) timer1 hstart).2]
      simp)
  | case7 prior count timer fs hg i snd hseek timer1 hstart r hres timer2 hcancel ih =>
    have hrdef : r = do_task env mode task_phase i (orc.clobber i)
      (orc.handler i) fs := rfl
    have hb := seek_task_bounds fs tasks task_pool task_phase prior i snd hseek
    have hti := start_timer_ok_state timer (orc.clock_start i) timer1 hstart
    have ht2 : timer2.timings = timer.timings := by
      rw [cancel_timer_of_some timer1 (orc.clock_start i) hti.2] at hcancel
      simp only [Except.ok.injEq] at hcancel
      rw [← hcancel, ← hti.1]
    obtain ⟨ih1, ih2, ih3, ih4, ih5, ih6⟩ := ih
    unfold invoke_tasks_run_loop
    rw [if_neg hg, hseek]
    dsimp only
    rw [hstart]
    dsimp only
    rw [← hrdef, hres]
    dsimp only
    rw [hcancel]
    dsimp only
    refine ⟨?_, ?_, ?_, ?_, ?_, ?_⟩
    · simp only [completed_count_cons, ih1]
      simp
    · simp only [completed_count_cons, ih2, ht2]
      simp
    · intro a ha
      rcases List.mem_cons.mp ha with h1 | h1
      · subst h1
        exact hb.1
      · have := ih3 a h1
        omega
    · refine List.pairwise_cons.mpr ⟨?_, ih4⟩
      intro a ha
      have := ih3 a ha
      simp only
      omega
    · exact ih5
    · intro hne
      have := ih6 hne
      omega
  | case8 prior count timer fs hg i snd hseek timer1 hstart r e hne hres =>
    have hrdef : r = do_task env mode task_phase i (orc.clobber i)
      (orc.handler i) fs := rfl
    have hb := seek_task_bounds fs tasks task_pool task_phase prior i snd hseek
    have hti := start_timer_ok_state timer (orc.clock_start i) timer1 hstart
    unfold invoke_tasks_run_loop
    rw [if_neg hg, hseek]
    dsimp only
    rw [hstart]
    dsimp only
    rw [← hrdef, hres]
    cases e with
    | lockContention => exact absurd rfl hne
    | insufficientTime =>
      dsimp only
      refine ⟨by simp [completed_count_cons, completed_count_nil],
        by simp [completed_count_cons, completed_count_nil, hti.1], ?_,
        by simp, by simp, ?_⟩
      · intro a ha
        rcases List.mem_cons.mp ha with h1 | h1
        · subst h1
          exact hb.1
        · exact absurd h1 (List.not_mem_nil a)
      · intro _
        exact le_max_right _ _
    | handlerFailure =>
      dsimp only
      refine ⟨by simp [completed_count_cons, completed_count_nil],
        by simp [completed_count_cons, completed_count_nil, hti.1], ?_,
        by simp, by simp, ?_⟩
      · intro a ha
        rcases List.mem_cons.mp ha with h1 | h1
        · subst h1
          exact hb.1
        · exact absurd h1 (List.not_mem_nil a)
      · intro _
        exact le_max_right _ _
    | osError =>
      dsimp only
      refine ⟨by simp [completed_count_cons, completed_count_nil],
        by simp [completed_count_cons, completed_count_nil, hti.1], ?_,
        by simp, by simp, ?_⟩
      · intro a ha
        rcases List.mem_cons.mp ha with h1 | h1
        · subst h1
          exact hb.1
        · exact absurd h1 (List.not_mem_nil a)
      · intro _
        exact le_max_right _ _
  | case9 prior count timer fs hg i snd hseek timer1 hstart r u hres a hstop =>
    exact absurd hstop (by
      rw [stop_timer_of_some timer1 (orc.clock_start i) (orc.clock_stop i)
        (start_timer_ok_state timer (orc.clock_start i) timer1 hstart).2]
      simp)
  | case10 prior count timer fs hg i snd hseek timer1 hstart r u hres x timer2 hstop ih =>
    have hrdef : r = do_task env mode task_phase i (orc.clobber i)
      (orc.handler i) fs := rfl
    have hb := seek_task_bounds fs tasks task_pool task_phase prior i snd hseek
    have hti := start_timer_ok_state timer (orc.clock_start i) timer1 hstart
    have ht2 : timer2.timings = timer.timings ++ [orc.clock_stop i -
        orc.clock_start i] := by
      rw [stop_timer_of_some timer1 (orc.clock_start i) (orc.clock_stop i)
        hti.2] at hstop
      simp only [Except.ok.injEq, Prod.mk.injEq] at hstop
      rw [← hstop.2, ← hti.1]
    obtain ⟨ih1, ih2, ih3, ih4, ih5, ih6⟩ := ih
    unfold invoke_tasks_run_loop
    rw [if_neg hg, hseek]
    dsimp only
    rw [hstart]
    dsimp only
    rw [← hrdef, hres]
    dsimp only
    rw [hstop]
    dsimp only
    refine ⟨?_, ?_, ?_, ?_, ?_, ?_⟩
    · simp only [completed_count_cons, ih1]
      simp
      omega
    · simp only [completed_count_cons, ih2, ht2]
      simp
      omega
    · intro a ha
      rcases List.mem_cons.mp ha with h1 | h1
      · subst h1
        exact hb.1
      · have := ih3 a h1
        omega
    · refine List.pairwise_cons.mpr ⟨?_, ih4⟩
      intro a ha
      have := ih3 a ha
      simp only
      omega
    · exact ih5
    · intro hne
      have h6 := ih6 hne
      have hguard := Decidable.not_not.mp hg
      rcases hguard with h7 | h7
      · exact absurd h7 hne
      · omega

/-- Claim C9: in the normal run loop, a LockContention from do_task never
increments the task count and never records a duration (the in-flight
timing is cancelled), and the loop continues scanning strictly forward; the
count is incremented exactly for attempts on which do_task returns
normally (the completed attempts of the trace); and when count_limit is
not -1 the loop stops with the count bounded by the limit. -/
theorem c9_run_loop_contention_count (tasks : List TaskRec)
    (task_pool : Option String) (task_phase : Nat) (task_start_index : Int)
    (task_count_limit : Int) (mode : TaskMode) (orc : RunOracles) (env : Env)
    (remaining_time now0 : ℚ) (fs : FS) (R : RunLoopResult)
    (hR : R = invoke_tasks_run tasks task_pool task_phase task_start_index
      task_count_limit mode orc env remaining_time now0 fs) :
    R.task_count = completed_count R.trace ∧
    R.timer.timings.length = R.task_count ∧
    (∀ a ∈ R.trace, task_start_index - 1 < (a.index : Int)) ∧
    R.trace.Pairwise (fun a b => a.index < b.index) ∧
    R.reason ≠ .taskError .lockContention ∧
    (task_count_limit ≠ -1 →
      (R.task_count : Int) ≤ max task_count_limit 0) := by
  subst hR
  unfold invoke_tasks_run
  obtain ⟨h1, h2, h3, h4, h5, h6⟩ := invoke_tasks_run_loop_spec tasks
    task_pool task_phase task_count_limit mode orc env (task_start_index - 1)
    0 (TaskTimer.init remaining_time now0 (11 / 10) 60) fs
  refine ⟨?_, ?_, h3, h4, h5, ?_⟩
  · rw [h1]
    simp
  · rw [h2, h1]
    simp [TaskTimer.init]
  · intro hne
    have h7 := h6 hne
    simpa using h7

/-- Witness for C9: with a count limit of zero the loop counts no task. -/
theorem c9_run_loop_contention_count_w :
    ((invoke_tasks_run cTasks1 (some "p") 0 0 0 .kRun cOrc cEnvI 1000 0
      cFs0).task_count : Int) ≤ max 0 0 :=
  (c9_run_loop_contention_count cTasks1 (some "p") 0 0 0 .kRun cOrc cEnvI
    1000 0 cFs0 _ rfl).2.2.2.2.2 (by decide)
